import Mathlib

/-!
Verification development for the RVE periodic-boundary-condition (PBC)
generator `RVE_support/rve_mpc_generator.py`.

The script is a batch transform: parse a text model definition, detect the
axis-aligned bounding box of the nodes, classify every node by the bounding
planes it touches, pair opposite-side boundary nodes, assemble multi-point
constraint (MPC) equations with strain-dependent dummy-node terms, run an
iterative closure that turns single-term collapses into implied absolute
constraints, build driver constraints from the strain tensor, and render a
WARP3D constraint deck.

Modelling conventions:
* Python floats are idealised as exact rationals (`ℚ`).  Signed zero and
  binary rounding artefacts are not modelled; `round` is modelled as
  round-half-up (Python uses round-half-even; the two differ only at exact
  ties, which nothing below relies on).
* Python dicts are modelled as insertion-ordered association lists (a later
  assignment to an existing key updates the value in place and keeps the
  key's position); Python sets of hashable pairs are modelled as `Finset`.
* Fatal `raise` paths are modelled with `Except String`; functions that
  cannot raise are total.
* Because the library's `Rat.add/mul/sub` are `@[irreducible]`, the
  embedding computes with the kernel-reducible wrappers `qadd`, `qsub`,
  `qmul` below, which are proved equal to the ordinary field operations.
-/

namespace RveMpc

/-- Decidable equality for `Except` results (needed to evaluate the model on
concrete inputs). -/
instance {ε α : Type} [DecidableEq ε] [DecidableEq α] : DecidableEq (Except ε α) := fun a b =>
  match a, b with
  | Except.ok x, Except.ok y =>
    if h : x = y then isTrue (h ▸ rfl) else isFalse (fun hh => by cases hh; exact h rfl)
  | Except.error x, Except.error y =>
    if h : x = y then isTrue (h ▸ rfl) else isFalse (fun hh => by cases hh; exact h rfl)
  | Except.ok _, Except.error _ => isFalse (fun hh => by cases hh)
  | Except.error _, Except.ok _ => isFalse (fun hh => by cases hh)

/-- Kernel-reducible rational addition (proved equal to `+` below). -/
def qadd (a b : ℚ) : ℚ := Rat.divInt (a.num * b.den + b.num * a.den) (a.den * b.den)

/-- Kernel-reducible rational multiplication (proved equal to `*` below). -/
def qmul (a b : ℚ) : ℚ := Rat.divInt (a.num * b.num) (a.den * b.den)

/-- Kernel-reducible rational subtraction (proved equal to `-` below). -/
def qsub (a b : ℚ) : ℚ := qadd a (-b)

theorem qadd_eq (a b : ℚ) : qadd a b = a + b := by
  rw [qadd, Rat.divInt_eq_div]
  have ha : (a.den : ℚ) ≠ 0 := Nat.cast_ne_zero.mpr a.den_nz
  have hb : (b.den : ℚ) ≠ 0 := Nat.cast_ne_zero.mpr b.den_nz
  conv_rhs => rw [← Rat.num_div_den a, ← Rat.num_div_den b]
  push_cast
  rw [div_add_div _ _ ha hb]
  ring_nf

theorem qmul_eq (a b : ℚ) : qmul a b = a * b := by
  rw [qmul, Rat.divInt_eq_div]
  conv_rhs => rw [← Rat.num_div_den a, ← Rat.num_div_den b]
  push_cast
  rw [div_mul_div_comm]

theorem qsub_eq (a b : ℚ) : qsub a b = a - b := by
  rw [qsub, qadd_eq, sub_eq_add_neg]

/-- `⌊q + 1/2⌋` computed on integers, so the kernel can evaluate it.
Models Python's `round(q)` up to the half-tie convention. -/
def qround (q : ℚ) : ℤ := (2 * q.num + q.den).fdiv (2 * q.den)

theorem qround_eq_round (q : ℚ) : qround q = round q := by
  have hset : q + 1 / 2 = ((2 * q.num + q.den : ℤ) : ℚ) / ((2 * q.den : ℕ) : ℚ) := by
    have h : (q.den : ℚ) ≠ 0 := Nat.cast_ne_zero.mpr q.den_nz
    conv_lhs => rw [← Rat.num_div_den q]
    push_cast
    field_simp
    ring
  rw [round_eq, hset, Rat.floor_intCast_div_natCast, qround,
    Int.fdiv_eq_ediv _ (by positivity)]
  push_cast
  ring_nf

/-- Integer-valued rational, kernel-reducible. -/
def qint (n : ℤ) : ℚ := Rat.divInt n 1

theorem qint_eq (n : ℤ) : qint n = (n : ℚ) := by
  rw [qint, Rat.divInt_eq_div]
  simp

/-- `10 ^ k` as a rational. -/
def qpow10 (k : ℕ) : ℚ := qint ((10 : ℤ) ^ k)

/-- `10 ^ (-k)`, i.e. `1 / 10 ^ k`, as a rational. -/
def qtenth (k : ℕ) : ℚ := Rat.divInt 1 ((10 : ℤ) ^ k)

theorem qtenth_eq (k : ℕ) : qtenth k = 1 / (10 : ℚ) ^ k := by
  rw [qtenth, Rat.divInt_eq_div]
  push_cast
  ring

/-! ## Data structures (`Node`, `Pairing`, DOF and face tags) -/

/-- Degree-of-freedom letters `"u"`, `"v"`, `"w"`. -/
inductive Dof
  | u
  | v
  | w
deriving DecidableEq, Repr

/-- The string the script uses for a DOF. -/
def Dof.str : Dof → String
  | .u => "u"
  | .v => "v"
  | .w => "w"

/-- Rank used to model Python's lexicographic comparison `"u" < "v" < "w"`. -/
def Dof.rank : Dof → ℕ
  | .u => 0
  | .v => 1
  | .w => 2

/-- Coordinate axes. -/
inductive Axis
  | X
  | Y
  | Z
deriving DecidableEq, Repr

/-- Boundary-face tags `"X-"`, `"X+"`, `"Y-"`, `"Y+"`, `"Z-"`, `"Z+"`. -/
inductive Face
  | Xm
  | Xp
  | Ym
  | Yp
  | Zm
  | Zp
deriving DecidableEq, Repr

/-- The axis a face tag belongs to (the Python code reads `minus_face[0]`). -/
def Face.axis : Face → Axis
  | .Xm => .X
  | .Xp => .X
  | .Ym => .Y
  | .Yp => .Y
  | .Zm => .Z
  | .Zp => .Z

/-- Node kinds; the dataclass default `""` is modelled as `unset`. -/
inductive Kind
  | unset
  | interior
  | face
  | edge
  | vertex
  | degenerate
deriving DecidableEq, Repr

/-- `@dataclass Node`: id, coordinates, boundary-face tags and derived kind. -/
structure Node where
  nid : ℕ
  x : ℚ
  y : ℚ
  z : ℚ
  faces : Finset Face := ∅
  kind : Kind := Kind.unset
deriving DecidableEq

/-- `@dataclass Pairing`: a minus-side node, its plus-side partner and the
displacement `delta = coords(plus) - coords(minus)`. -/
structure Pairing where
  minus_node : ℕ
  plus_node : ℕ
  delta : ℚ × ℚ × ℚ
deriving DecidableEq, Repr

/-- The eight caller-named vertex ids, in label order A..H (the script keeps
them in a dict with exactly these keys, inserted in this order). -/
structure VertexIds where
  A : ℕ
  B : ℕ
  C : ℕ
  D : ℕ
  E : ℕ
  F : ℕ
  G : ℕ
  H : ℕ
deriving DecidableEq, Repr

/-- A linear term `(coefficient, node id, dof)` of an MPC equation. -/
abbrev Term := ℚ × ℕ × Dof

/-- An entry of `DUMMY_EPS_MAP`: `(i, j) ↦ (dummy_node, driver_node, dof)`. -/
abbrev DMapEntry := (ℕ × ℕ) × (ℕ × ℕ × Dof)

/-- The strain tensor as three rows of three rationals. -/
abbrev Eps := List (List ℚ)

/-- `eps[i-1][j-1]` (the parser guarantees a full 3×3 tensor; out-of-range
access is modelled as `0` instead of an `IndexError`). -/
def epsAt (eps : Eps) (i j : ℕ) : ℚ := ((eps.getD (i - 1) []).getD (j - 1) 0)

/-- `comp = {1: "u", 2: "v", 3: "w"}` (only ever read at 1, 2, 3). -/
def comp : ℕ → Dof
  | 1 => Dof.u
  | 2 => Dof.v
  | _ => Dof.w

/-! ## Numeric helpers of the script -/

/-- Default tolerance `1.0e-12`. -/
def tol12 : ℚ := qtenth 12

/-- Strain negligibility threshold `1.0e-14`. -/
def eps_tol14 : ℚ := qtenth 14

/-- Relative classification tolerance `1.0e-6`. -/
def tol_rel6 : ℚ := qtenth 6

/-- `is_close(a, b, tol)`: `abs(a - b) <= tol`. -/
def is_close (a b tol : ℚ) : Bool := decide (|qsub a b| ≤ tol)

theorem is_close_iff (a b tol : ℚ) : is_close a b tol = true ↔ |a - b| ≤ tol := by
  rw [is_close, qsub_eq, decide_eq_true_iff]

/-- Left-pad a decimal digit string with zeros to the given width. -/
def padZeros (s : String) (w : ℕ) : String :=
  String.mk (List.replicate (w - s.length) '0') ++ s

/-- Python `s.rstrip(c)` for a single strip character. -/
def rstripChar (c : Char) (s : String) : String :=
  String.mk ((s.data.reverse.dropWhile (fun d => d == c)).reverse)

/-- Whether the string contains the character. -/
def strContains (s : String) (c : Char) : Bool := s.data.any (fun d => d == c)

/-- `float_to_str(val)`: human-friendly float format without scientific
notation — `"0.0"` for `|val| < 1e-12`, else `round(val, 10)` printed with
10 decimals, trailing zeros then a trailing dot stripped, and `".0"`
restored when no decimal point survives. -/
def float_to_str (val : ℚ) : String :=
  if decide (|val| < tol12) then "0.0"
  else
    let n : ℤ := qround (qmul val (qpow10 10))
    let sign : String := if decide (n < 0) then "-" else ""
    let m : ℕ := n.natAbs
    let s0 : String :=
      sign ++ Nat.repr (m / 10 ^ 10) ++ "." ++ padZeros (Nat.repr (m % 10 ^ 10)) 10
    let s1 : String := rstripChar '.' (rstripChar '0' s0)
    if strContains s1 '.' then s1 else s1 ++ ".0"

/-- `round_coord(val)` = `round(val, 6)`. -/
def round_coord (val : ℚ) : ℚ := Rat.divInt (qround (qmul val (qpow10 6))) ((10 : ℤ) ^ 6)

/-! ## Python string helpers (`data_tokens`, number parsing, `repr`) -/

/-- Python whitespace characters recognised by `str.split()` / `str.strip()`. -/
def isPySpace (c : Char) : Bool :=
  c == ' ' || c == '\t' || c == '\n' || c == '\r' || c == Char.ofNat 11 || c == Char.ofNat 12

/-- The part of a line before the first `'#'` (models `line.split("#", 1)[0]`). -/
def takeBeforeHash : List Char → List Char
  | [] => []
  | c :: cs => if c == '#' then [] else c :: takeBeforeHash cs

/-- Python `str.strip()` on a character list. -/
def stripChars (l : List Char) : List Char :=
  ((l.dropWhile isPySpace).reverse.dropWhile isPySpace).reverse

/-- Helper of `splitWs`: accumulate the current (reversed) token. -/
def splitWsGo : List Char → List Char → List String
  | [], cur => if cur.isEmpty then [] else [String.mk cur.reverse]
  | c :: cs, cur =>
    if isPySpace c then
      if cur.isEmpty then splitWsGo cs [] else String.mk cur.reverse :: splitWsGo cs []
    else splitWsGo cs (c :: cur)

/-- Python `str.split()` (split on whitespace runs, dropping empties). -/
def splitWs (l : List Char) : List String := splitWsGo l []

/-- `data_tokens(line)`: tokens of the non-comment part of a line, with
commas treated as spaces. -/
def data_tokens (line : String) : List String :=
  let core := stripChars (takeBeforeHash line.data)
  if core.isEmpty then []
  else splitWs (core.map (fun c => if c == ',' then ' ' else c))

/-- Decimal digit fold. -/
def digitsNat (l : List Char) : ℕ := l.foldl (fun a c => a * 10 + (c.toNat - 48)) 0

/-- All-digit check plus value; `none` for empty or non-digit input. -/
def digitsVal? (l : List Char) : Option ℕ :=
  if l.isEmpty then none
  else if l.all Char.isDigit then some (digitsNat l) else none

/-- Python `int(token)` for plain decimal tokens (underscored literals and
surrounding whitespace, which `data_tokens` never produces, are not
modelled). -/
def pyInt? (s : String) : Option ℤ :=
  match s.data with
  | '-' :: rest => (digitsVal? rest).map (fun n => -(n : ℤ))
  | '+' :: rest => (digitsVal? rest).map (fun n => (n : ℤ))
  | l => (digitsVal? l).map (fun n => (n : ℤ))

/-- Python `float(token)` for decimal/exponent notation (`inf`/`nan` and
underscored literals are not modelled). -/
def pyFloat? (s : String) : Option ℚ :=
  let p : ℤ × List Char :=
    match s.data with
    | '-' :: rest => ((-1 : ℤ), rest)
    | '+' :: rest => ((1 : ℤ), rest)
    | l => ((1 : ℤ), l)
  let sgn := p.1
  let l := p.2
  let ip : List Char × List Char := l.span Char.isDigit
  let fp : List Char × List Char :=
    match ip.2 with
    | '.' :: rest => rest.span Char.isDigit
    | _ => ([], ip.2)
  let rest2 : List Char := if ip.2.head? = some '.' then fp.2 else ip.2
  if ip.1.isEmpty && fp.1.isEmpty then none
  else
    let mant : ℤ := sgn * digitsNat (ip.1 ++ fp.1)
    let flen : ℕ := fp.1.length
    match rest2 with
    | [] => some (Rat.divInt mant ((10 : ℤ) ^ flen))
    | e :: erest =>
      if e == 'e' || e == 'E' then
        let ep : ℤ × List Char :=
          match erest with
          | '-' :: r => ((-1 : ℤ), r)
          | '+' :: r => ((1 : ℤ), r)
          | r => ((1 : ℤ), r)
        match digitsVal? ep.2 with
        | none => none
        | some ev =>
          let texp : ℤ := ep.1 * ev - flen
          if 0 ≤ texp then some (Rat.divInt (mant * (10 : ℤ) ^ texp.toNat) 1)
          else some (Rat.divInt mant ((10 : ℤ) ^ (-texp).toNat))
      else none

/-- The single-quote character (written via its code point to keep string
literals free of quote characters). -/
def sq : String := String.mk [Char.ofNat 39]

/-- The backslash character. -/
def bslash : Char := Char.ofNat 92

/-- Python `repr` of one character inside a single-quoted string literal
(only the backslash and the quote itself need escaping for the inputs the
script handles; control-character escapes are not modelled). -/
def pyReprChar (c : Char) : List Char :=
  if c == bslash then [bslash, bslash]
  else if c == Char.ofNat 39 then [bslash, Char.ofNat 39]
  else [c]

/-- Python `repr(s)` for a string: single-quoted with minimal escaping. -/
def pyRepr (s : String) : String :=
  sq ++ String.mk (s.data.flatMap pyReprChar) ++ sq

/-- Python `repr` of a list of strings, e.g. `['1', 'a']`. -/
def pyListRepr (l : List String) : String :=
  "[" ++ String.intercalate ", " (l.map pyRepr) ++ "]"

/-! ## Sorting (Python `sorted`), via `List.insertionSort` -/

/-- Python tuple comparison on `(node_id, dof-string)` keys: numeric on the
id, then `"u" < "v" < "w"` on the dof letter. -/
def pairLeP (a b : ℕ × Dof) : Prop :=
  a.1 < b.1 ∨ (a.1 = b.1 ∧ a.2.rank ≤ b.2.rank)

instance : DecidableRel pairLeP := fun a b => by
  unfold pairLeP
  infer_instance

theorem Dof.rank_injective : ∀ a b : Dof, a.rank = b.rank → a = b := by
  intro a b
  cases a <;> cases b <;> simp [Dof.rank]

instance : IsTrans (ℕ × Dof) pairLeP where
  trans a b c hab hbc := by
    rcases hab with h1 | ⟨h1, h1r⟩ <;> rcases hbc with h2 | ⟨h2, h2r⟩
    · exact Or.inl (h1.trans h2)
    · exact Or.inl (h2 ▸ h1)
    · exact Or.inl (h1 ▸ h2)
    · exact Or.inr ⟨h1.trans h2, h1r.trans h2r⟩

instance : IsAntisymm (ℕ × Dof) pairLeP where
  antisymm a b hab hba := by
    rcases hab with h1 | ⟨h1, h1r⟩ <;> rcases hba with h2 | ⟨h2, h2r⟩
    · exact absurd (h1.trans h2) (lt_irrefl _)
    · exact absurd h1 (h2 ▸ lt_irrefl _)
    · exact absurd h2 (h1 ▸ lt_irrefl _)
    · exact Prod.ext h1 (Dof.rank_injective _ _ (le_antisymm h1r h2r))

instance : IsTotal (ℕ × Dof) pairLeP where
  total a b := by
    rcases lt_trichotomy a.1 b.1 with h | h | h
    · exact Or.inl (Or.inl h)
    · rcases le_total a.2.rank b.2.rank with hr | hr
      · exact Or.inl (Or.inr ⟨h, hr⟩)
      · exact Or.inr (Or.inr ⟨h.symm, hr⟩)
    · exact Or.inr (Or.inl h)

/-- Python tuple comparison on `(i, j)` keys. -/
def ijLeP (a b : ℕ × ℕ) : Prop := a.1 < b.1 ∨ (a.1 = b.1 ∧ a.2 ≤ b.2)

instance : DecidableRel ijLeP := fun a b => by
  unfold ijLeP
  infer_instance

/-- Lexicographic code-point comparison of character lists (Python string `<=`). -/
def charListLe : List Char → List Char → Bool
  | [], _ => true
  | _ :: _, [] => false
  | a :: as, b :: bs =>
    if a.toNat < b.toNat then true
    else if b.toNat < a.toNat then false
    else charListLe as bs

/-- Python string comparison. -/
def strLeP (a b : String) : Prop := charListLe a.data b.data = true

instance : DecidableRel strLeP := fun a b => by
  unfold strLeP
  infer_instance

/-- `sorted(set(l))` for strings: the distinct elements in ascending order. -/
def sortedSet (l : List String) : List String := l.dedup.insertionSort strLeP

/-- `sorted` on a Python set of `(node_id, dof)` pairs.  Well defined on the
`Finset` because an insertion sort of any enumeration yields the same
sorted list. -/
def sortedPairs (s : Finset (ℕ × Dof)) : List (ℕ × Dof) :=
  Quotient.lift (fun l : List (ℕ × Dof) => l.insertionSort pairLeP)
    (fun l₁ l₂ h =>
      List.eq_of_perm_of_sorted
        (((l₁.perm_insertionSort pairLeP).trans h).trans
          (l₂.perm_insertionSort pairLeP).symm)
        (l₁.sorted_insertionSort pairLeP) (l₂.sorted_insertionSort pairLeP))
    s.val

/-! ## Insertion-ordered dictionaries (Python `dict`)

A later assignment to an existing key updates the value in place, keeping
the key at its original position; a new key is appended.  Iteration order is
list order, which matches Python's insertion-order guarantee. -/

/-- `d[k] = v` on an insertion-ordered association list. -/
def insertAL [DecidableEq α] (al : List (α × β)) (k : α) (v : β) : List (α × β) :=
  if al.any (fun p => decide (p.1 = k)) then
    al.map (fun p => if p.1 = k then (k, v) else p)
  else al ++ [(k, v)]

/-- Build a dict from a list of key/value pairs (a Python dict comprehension:
later pairs overwrite earlier ones). -/
def buildAL [DecidableEq α] (l : List (α × β)) : List (α × β) :=
  l.foldl (fun al p => insertAL al p.1 p.2) []

/-- `d.get(k)` — first (and, by construction, only) match. -/
def lookupAL [DecidableEq α] : List (α × β) → α → Option β
  | [], _ => none
  | p :: rest, k => if p.1 = k then some p.2 else lookupAL rest k

/-! ## Parsing: the node block of `parse_model_def`

The script requires exactly `n_nodes` lines `node_id x y z` whose ids equal
their 1-based position in the block; anything else is a fatal `ValueError`
whose message embeds the offending line. -/

/-- One pass over the node lines, carrying the expected sequential id. -/
def parse_node_loop (lines : List String) : ℕ → ℕ → ℕ → Except String (List Node)
  | _, _, 0 => Except.ok []
  | idx, expected, c + 1 =>
    let line := lines.getD idx ""
    let parts := data_tokens line
    if parts.length ≠ 4 then
      Except.error ("Bad node line: " ++ pyRepr line ++ " tokens=" ++ pyListRepr parts)
    else
      match pyInt? (parts.getD 0 "") with
      | none =>
        Except.error ("invalid literal for int() with base 10: " ++ pyRepr (parts.getD 0 ""))
      | some nid =>
        if nid ≠ (expected : ℤ) then
          Except.error ("Node numbering not sequential. Expected node " ++ Nat.repr expected ++
            " on this line, got " ++ Int.repr nid ++ ". Line: " ++ pyRepr line)
        else
          match pyFloat? (parts.getD 1 "") with
          | none =>
            Except.error ("could not convert string to float: " ++ pyRepr (parts.getD 1 ""))
          | some x =>
            match pyFloat? (parts.getD 2 "") with
            | none =>
              Except.error ("could not convert string to float: " ++ pyRepr (parts.getD 2 ""))
            | some y =>
              match pyFloat? (parts.getD 3 "") with
              | none =>
                Except.error ("could not convert string to float: " ++ pyRepr (parts.getD 3 ""))
              | some z =>
                (parse_node_loop lines (idx + 1) (expected + 1) c).map
                  (fun rest => { nid := expected, x := x, y := y, z := z } :: rest)

/-- The node-block section of `parse_model_def` (the `n_nodes` node lines
that follow the `DUMMY_EPS_MAP` block, starting at index `idx` of the
comment-stripped line list). -/
def parse_node_block (lines : List String) (idx n_nodes : ℕ) : Except String (List Node) :=
  if lines.length < idx + n_nodes then
    Except.error ("Expected " ++ Nat.repr n_nodes ++ " node lines starting at index " ++
      Nat.repr idx ++ ", but insufficient lines.")
  else parse_node_loop lines idx 1 n_nodes

/-! ## Bounds detection and boundary classification -/

/-- The detected axis-aligned bounding box. -/
structure Bounds where
  xmin : ℚ
  xmax : ℚ
  ymin : ℚ
  ymax : ℚ
  zmin : ℚ
  zmax : ℚ
deriving DecidableEq

/-- `detect_bounds(nodes)`: min/max of all coordinates.  `none` models the
`ValueError` Python's `min`/`max` raise on an empty node dict. -/
def detect_bounds (nodes : List Node) : Option Bounds :=
  match nodes with
  | [] => none
  | nd :: rest =>
    some (rest.foldl
      (fun b n =>
        ⟨min b.xmin n.x, max b.xmax n.x, min b.ymin n.y, max b.ymax n.y,
          min b.zmin n.z, max b.zmax n.z⟩)
      ⟨nd.x, nd.x, nd.y, nd.y, nd.z, nd.z⟩)

/-- Classify one node: tag each bounding plane whose distance is `≤ tol`,
then derive the kind from the number of tags. -/
def classify_one (b : Bounds) (tol : ℚ) (nd : Node) : Node :=
  let faces : Finset Face :=
    (if decide (|qsub nd.x b.xmin| ≤ tol) then {Face.Xm} else ∅) ∪
    (if decide (|qsub nd.x b.xmax| ≤ tol) then {Face.Xp} else ∅) ∪
    (if decide (|qsub nd.y b.ymin| ≤ tol) then {Face.Ym} else ∅) ∪
    (if decide (|qsub nd.y b.ymax| ≤ tol) then {Face.Yp} else ∅) ∪
    (if decide (|qsub nd.z b.zmin| ≤ tol) then {Face.Zm} else ∅) ∪
    (if decide (|qsub nd.z b.zmax| ≤ tol) then {Face.Zp} else ∅)
  let nf := faces.card
  let kind :=
    if nf = 0 then Kind.interior
    else if nf = 1 then Kind.face
    else if nf = 2 then Kind.edge
    else if nf = 3 then Kind.vertex
    else Kind.degenerate
  { nd with faces := faces, kind := kind }

/-- The relative classification tolerance:
`tol_rel * max(|Lx|,|Ly|,|Lz|)` when the box has positive extent, the raw
`tol_rel` otherwise. -/
def classify_tol (b : Bounds) (tol_rel : ℚ) : ℚ :=
  let Lmax := max |qsub b.xmax b.xmin| (max |qsub b.ymax b.ymin| |qsub b.zmax b.zmin|)
  if decide (0 < Lmax) then qmul tol_rel Lmax else tol_rel

/-- `classify_boundary_nodes(bounds, nodes, tol_rel)`, modelled functionally:
returns the node list with `faces`/`kind` filled in. -/
def classify_boundary_nodes (b : Bounds) (nodes : List Node) (tol_rel : ℚ) : List Node :=
  nodes.map (classify_one b (classify_tol b tol_rel))

/-! ## Pairings (faces, edges, vertices) -/

/-- `nodes.get(i)` on the id-keyed node dict. -/
def findNode (nodes : List Node) (i : ℕ) : Option Node :=
  nodes.find? (fun nd => decide (nd.nid = i))

/-- The transverse matching key of `_pair_face_nodes`, rounded to 6 decimals. -/
def faceKey (minus_face : Face) (nd : Node) : ℚ × ℚ :=
  match minus_face.axis with
  | Axis.X => (round_coord nd.y, round_coord nd.z)
  | Axis.Y => (round_coord nd.x, round_coord nd.z)
  | Axis.Z => (round_coord nd.x, round_coord nd.y)

/-- Make the pairing `minus → plus` with `delta = coords(plus) - coords(minus)`. -/
def mkPairing (nodes : List Node) (mid pid : ℕ) : Option Pairing :=
  match findNode nodes mid, findNode nodes pid with
  | some a, some b => some ⟨mid, pid, (qsub b.x a.x, qsub b.y a.y, qsub b.z a.z)⟩
  | _, _ => none

/-- `_pair_face_nodes(nodes, minus_face, plus_face)`: key both sides by the
rounded transverse coordinates and pair the keys present on both sides.
Note: membership of the face tag is the only filter — there is no
`kind == "face"` check here. -/
def pair_face_nodes (nodes : List Node) (minus_face plus_face : Face) : List Pairing :=
  let m := buildAL ((nodes.filter (fun nd => decide (minus_face ∈ nd.faces))).map
    (fun nd => (faceKey minus_face nd, nd.nid)))
  let p := buildAL ((nodes.filter (fun nd => decide (plus_face ∈ nd.faces))).map
    (fun nd => (faceKey minus_face nd, nd.nid)))
  m.filterMap (fun kv =>
    match lookupAL p kv.1 with
    | none => none
    | some pid => mkPairing nodes kv.2 pid)

/-- The three face-pairing groups, keyed `"X"`, `"Y"`, `"Z"`. -/
structure FacePairings where
  X : List Pairing
  Y : List Pairing
  Z : List Pairing
deriving DecidableEq

/-- `build_face_pairings(nodes)`. -/
def build_face_pairings (nodes : List Node) : FacePairings :=
  ⟨pair_face_nodes nodes Face.Xm Face.Xp,
   pair_face_nodes nodes Face.Ym Face.Yp,
   pair_face_nodes nodes Face.Zm Face.Zp⟩

/-- `_axis_coord(nd, axis)`. -/
def axis_coord (nd : Node) (axis : Axis) : ℚ :=
  match axis with
  | Axis.X => nd.x
  | Axis.Y => nd.y
  | Axis.Z => nd.z

/-- The six edge-type specs `(label, minus_faces, plus_faces)`. -/
def edgeSpecs : List (String × (Face × Face) × (Face × Face)) :=
  [("X-Y (--)/(++)", (Face.Xm, Face.Ym), (Face.Xp, Face.Yp)),
   ("X-Y (-+)/(+-)", (Face.Xm, Face.Yp), (Face.Xp, Face.Ym)),
   ("X-Z (--)/(++)", (Face.Xm, Face.Zm), (Face.Xp, Face.Zp)),
   ("X-Z (-+)/(+-)", (Face.Xm, Face.Zp), (Face.Xp, Face.Zm)),
   ("Y-Z (--)/(++)", (Face.Ym, Face.Zm), (Face.Yp, Face.Zp)),
   ("Y-Z (-+)/(+-)", (Face.Ym, Face.Zp), (Face.Yp, Face.Zm))]

/-- `(axes - used_axes).pop()`: the axis not used by the two faces. -/
def freeAxis (a b : Axis) : Axis :=
  if a ≠ Axis.X ∧ b ≠ Axis.X then Axis.X
  else if a ≠ Axis.Y ∧ b ≠ Axis.Y then Axis.Y
  else Axis.Z

/-- One edge group of `build_edge_pairings`: only nodes of kind `edge` whose
face-tag set equals the required two-face set participate; the free axis
coordinate, rounded to 6 decimals, is the matching key. -/
def edgePairList (nodes : List Node) (minus_faces plus_faces : Face × Face) : List Pairing :=
  let minus_set : Finset Face := {minus_faces.1, minus_faces.2}
  let plus_set : Finset Face := {plus_faces.1, plus_faces.2}
  let minus_nodes := nodes.filter
    (fun nd => decide (nd.kind = Kind.edge) && decide (nd.faces = minus_set))
  let plus_nodes := nodes.filter
    (fun nd => decide (nd.kind = Kind.edge) && decide (nd.faces = plus_set))
  if minus_nodes.isEmpty || plus_nodes.isEmpty then []
  else
    let paxis := freeAxis minus_faces.1.axis minus_faces.2.axis
    let km := buildAL (minus_nodes.map (fun nd => (round_coord (axis_coord nd paxis), nd.nid)))
    let kp := buildAL (plus_nodes.map (fun nd => (round_coord (axis_coord nd paxis), nd.nid)))
    km.filterMap (fun kv =>
      match lookupAL kp kv.1 with
      | none => none
      | some pid => mkPairing nodes kv.2 pid)

/-- `build_edge_pairings(nodes)`: the six labelled edge groups, in spec order. -/
def build_edge_pairings (nodes : List Node) : List (String × List Pairing) :=
  edgeSpecs.map (fun s => (s.1, edgePairList nodes s.2.1 s.2.2))

/-- Helper of `build_vertex_pairings_from_vertices`: process the labelled
`(plus, minus)` id pairs, failing on the first id absent from the node dict. -/
def vertexPairLoop (nodes : List Node) : List (String × String × ℕ × ℕ) → Except String (List Pairing)
  | [] => Except.ok []
  | (pl, ml, pid, mid) :: rest =>
    if (findNode nodes pid).isNone || (findNode nodes mid).isNone then
      Except.error ("Vertex id missing in node list: " ++ pl ++ "->" ++ ml ++ " (" ++
        Nat.repr pid ++ "->" ++ Nat.repr mid ++ ")")
    else
      match mkPairing nodes mid pid with
      | none => Except.ok []
      | some pr => (vertexPairLoop nodes rest).map (fun out => pr :: out)

/-- `build_vertex_pairings_from_vertices(nodes, vertex_ids)`: the four fixed
body-diagonal pairings `(A,G), (D,F), (B,H), (E,C)` (minus → plus). -/
def build_vertex_pairings_from_vertices (nodes : List Node) (v : VertexIds) :
    Except String (List Pairing) :=
  vertexPairLoop nodes
    [("G", "A", v.G, v.A), ("F", "D", v.F, v.D), ("H", "B", v.H, v.B), ("C", "E", v.C, v.E)]

/-! ## MPC generation (`generate_dummy_mpcs_for_pairs`)

The source function returns `(mpc_lines, implied_abs, warnings)`.  The
embedding keeps each MPC equation as its term list; `render_mpc_line` below
reproduces the exact string the script assembles from those terms. -/

/-- Generator output: MPC equations (as term lists, in emission order), the
set of implied absolute constraints, and the warnings in emission order. -/
structure GenOut where
  mpcs : List (List Term)
  implied : Finset (ℕ × Dof)
  warns : List String
deriving DecidableEq

/-- Concatenate two generator outputs (list append, set union). -/
def genCombine (a b : GenOut) : GenOut :=
  ⟨a.mpcs ++ b.mpcs, a.implied ∪ b.implied, a.warns ++ b.warns⟩

/-- The dummy-term loop: for each transverse direction `j` with its delta
component `dv`, skip negligible strain or zero delta, warn when `(i,j)` is
missing from the dummy map, skip already-fixed dummy DOFs, and otherwise
append the term `(-dv, dummy_node, dummy_dof)`. -/
def dummy_terms_loop (eps : Eps) (dmap : List DMapEntry) (fixed : Finset (ℕ × Dof))
    (eps_tol : ℚ) (i : ℕ) : List (ℕ × ℚ) → List Term × List String
  | [] => ([], [])
  | (j, dv) :: rest =>
    let eij := epsAt eps i j
    let head : List Term × List String :=
      if decide (|eij| < eps_tol) || decide (dv = 0) then ([], [])
      else
        match lookupAL dmap (i, j) with
        | none =>
          ([], ["WARNING: eps_" ++ Nat.repr i ++ Nat.repr j ++
            " nonzero but missing from DUMMY_EPS_MAP."])
        | some dval =>
          if (dval.1, dval.2.2) ∈ fixed then ([], [])
          else ([((-dv : ℚ), dval.1, dval.2.2)], [])
    let tail := dummy_terms_loop eps dmap fixed eps_tol i rest
    (head.1 ++ tail.1, head.2 ++ tail.2)

/-- Assemble the term list for one pairing and one DOF component `i` under
the current fixed-DOF set: the `+1` plus-node and `-1` minus-node physical
terms (each unless already fixed), then the dummy terms. -/
def build_dof_terms (eps : Eps) (dmap : List DMapEntry) (fixed : Finset (ℕ × Dof))
    (eps_tol : ℚ) (p : Pairing) (i : ℕ) : List Term × List String :=
  let dof := comp i
  let phys : List Term :=
    (if (p.plus_node, dof) ∈ fixed then [] else [((1 : ℚ), p.plus_node, dof)]) ++
    (if (p.minus_node, dof) ∈ fixed then [] else [((-1 : ℚ), p.minus_node, dof)])
  let dt := dummy_terms_loop eps dmap fixed eps_tol i
    [(1, p.delta.1), (2, p.delta.2.1), (3, p.delta.2.2)]
  (phys ++ dt.1, dt.2)

/-- The resolution policy on an assembled term list: no terms — nothing;
a single term with coefficient magnitude within `one_term_tol` of 1 on a
physical node (present in the node dict) — an implied zero constraint; any
other single term — an unresolved-residual warning; two or more terms — one
MPC equation. -/
def single_term_warning (t : Term) : String :=
  "WARNING: single-term residual not auto-converted: (node " ++
    Nat.repr t.2.1 ++ ", dof " ++ t.2.2.str ++ ", coeff " ++ float_to_str t.1 ++ ")"

def resolve_terms (nodes : List Node) (one_term_tol : ℚ) (terms : List Term) : GenOut :=
  match terms with
  | [] => ⟨[], ∅, []⟩
  | [t] =>
    let is_physical := (findNode nodes t.2.1).isSome
    if is_physical && is_close |t.1| 1 one_term_tol then ⟨[], {(t.2.1, t.2.2)}, []⟩
    else ⟨[], ∅, [single_term_warning t]⟩
  | _ => ⟨[terms], ∅, []⟩

/-- Contribution of one pairing and one DOF component. -/
def process_pair_dof (nodes : List Node) (eps : Eps) (dmap : List DMapEntry)
    (fixed : Finset (ℕ × Dof)) (eps_tol one_term_tol : ℚ) (p : Pairing) (i : ℕ) : GenOut :=
  let bt := build_dof_terms eps dmap fixed eps_tol p i
  let r := resolve_terms nodes one_term_tol bt.1
  ⟨r.mpcs, r.implied, bt.2 ++ r.warns⟩

/-- Contribution of one pairing: the three DOF components in order. -/
def process_pair (nodes : List Node) (eps : Eps) (dmap : List DMapEntry)
    (fixed : Finset (ℕ × Dof)) (eps_tol one_term_tol : ℚ) (p : Pairing) : GenOut :=
  genCombine (process_pair_dof nodes eps dmap fixed eps_tol one_term_tol p 1)
    (genCombine (process_pair_dof nodes eps dmap fixed eps_tol one_term_tol p 2)
      (process_pair_dof nodes eps dmap fixed eps_tol one_term_tol p 3))

/-- The generator's kind guard: with a required kind, both endpoints must
have exactly that kind. -/
def requiredKindOk : Option Kind → Node → Node → Bool
  | none, _, _ => true
  | some k, a, b => decide (a.kind = k) && decide (b.kind = k)

/-- `generate_dummy_mpcs_for_pairs(pair_list, nodes, eps, dummy_eps_map,
fixed_dofs, required_kind, eps_tol, one_term_tol)`: pairings whose endpoints
are missing from the node dict or fail the kind guard are skipped. -/
def generate_dummy_mpcs_for_pairs (pair_list : List Pairing) (nodes : List Node) (eps : Eps)
    (dmap : List DMapEntry) (fixed : Finset (ℕ × Dof)) (required_kind : Option Kind)
    (eps_tol one_term_tol : ℚ) : GenOut :=
  match pair_list with
  | [] => ⟨[], ∅, []⟩
  | p :: rest =>
    let tail := generate_dummy_mpcs_for_pairs rest nodes eps dmap fixed required_kind
      eps_tol one_term_tol
    match findNode nodes p.minus_node, findNode nodes p.plus_node with
    | some a, some b =>
      if requiredKindOk required_kind a b then
        genCombine (process_pair nodes eps dmap fixed eps_tol one_term_tol p) tail
      else tail
    | _, _ => tail

/-- Whether a pairing passes the generator's guard for a required kind:
both endpoints resolve in the node dict and have exactly that kind. -/
def pairKindOk (nodes : List Node) (k : Kind) (p : Pairing) : Bool :=
  match findNode nodes p.minus_node, findNode nodes p.plus_node with
  | some a, some b => requiredKindOk (some k) a b
  | _, _ => false

/-- First term of an assembled MPC line: `"{nid} {coeff} {dch}"`. -/
def render_term_first (t : Term) : String :=
  Nat.repr t.2.1 ++ " " ++ float_to_str t.1 ++ " " ++ t.2.2.str

/-- Subsequent term: `"{sign} {nid} {|coeff|} {dch}"`. -/
def render_term_rest (t : Term) : String :=
  (if decide (0 ≤ t.1) then "+" else "-") ++ " " ++ Nat.repr t.2.1 ++ " " ++
    float_to_str |t.1| ++ " " ++ t.2.2.str

/-- The assembled MPC line `"  " + "  ".join(parts) + " = 0."`. -/
def render_mpc_line (terms : List Term) : String :=
  match terms with
  | [] => "   = 0."
  | t :: rest =>
    "  " ++ String.intercalate "  " (render_term_first t :: rest.map render_term_rest) ++ " = 0."

/-! ## Closure (`closure_generate_all_mpcs`) -/

/-- Everything the closure iterates over: the grouped pairings and the data
they are generated against. -/
structure PairingConfig where
  face_pairings : FacePairings
  edge_pairings : List (String × List Pairing)
  vertex_pairings : List Pairing
  nodes : List Node
  eps : Eps
  dmap : List DMapEntry

/-- One full sweep over all groups in emission order: faces X, Y, Z
(required kind `face`), the six edge groups (required kind `edge`), then
the vertex group (no kind requirement). -/
def groups_out (cfg : PairingConfig) (fixed : Finset (ℕ × Dof)) (eps_tol : ℚ) : GenOut :=
  let gX := generate_dummy_mpcs_for_pairs cfg.face_pairings.X cfg.nodes cfg.eps cfg.dmap
    fixed (some Kind.face) eps_tol tol12
  let gY := generate_dummy_mpcs_for_pairs cfg.face_pairings.Y cfg.nodes cfg.eps cfg.dmap
    fixed (some Kind.face) eps_tol tol12
  let gZ := generate_dummy_mpcs_for_pairs cfg.face_pairings.Z cfg.nodes cfg.eps cfg.dmap
    fixed (some Kind.face) eps_tol tol12
  let ge := cfg.edge_pairings.foldl
    (fun acc lp => genCombine acc (generate_dummy_mpcs_for_pairs lp.2 cfg.nodes cfg.eps
      cfg.dmap fixed (some Kind.edge) eps_tol tol12))
    ⟨[], ∅, []⟩
  let gv := generate_dummy_mpcs_for_pairs cfg.vertex_pairings cfg.nodes cfg.eps cfg.dmap
    fixed none eps_tol tol12
  genCombine gX (genCombine gY (genCombine gZ (genCombine ge gv)))

/-- The implied absolute constraints one closure iteration discovers under
the current fixed set. -/
def implied_total (cfg : PairingConfig) (fixed : Finset (ℕ × Dof)) (eps_tol : ℚ) :
    Finset (ℕ × Dof) :=
  (groups_out cfg fixed eps_tol).implied

/-- The `for _iter in range(50)` loop: accumulate warnings, stop early when
an iteration adds nothing (flag `false`), report cap exhaustion with flag
`true` (the source's `for`/`else`). -/
def closure_loop (cfg : PairingConfig) (eps_tol : ℚ) :
    ℕ → Finset (ℕ × Dof) → List String → Finset (ℕ × Dof) × List String × Bool
  | 0, fixed, ws => (fixed, ws, true)
  | n + 1, fixed, ws =>
    let g := groups_out cfg fixed eps_tol
    let ws2 := ws ++ g.warns
    let new_implied := g.implied \ fixed
    if new_implied = ∅ then (fixed, ws2, false)
    else closure_loop cfg eps_tol n (fixed ∪ new_implied) ws2

/-- Closure result: the closed fixed set, the final MPC equations generated
under it, and the deduplicated sorted warnings. -/
structure ClosureOut where
  fixed : Finset (ℕ × Dof)
  mpcs : List (List Term)
  warnings : List String
deriving DecidableEq

/-- `closure_generate_all_mpcs(...)`: run the bounded closure loop from the
caller-supplied fixed set, then regenerate the final MPC list once under the
closed set; warnings are `sorted(set(...))`. -/
def closure_generate_all_mpcs (cfg : PairingConfig) (fixed_initial : Finset (ℕ × Dof))
    (eps_tol : ℚ) : ClosureOut :=
  let r := closure_loop cfg eps_tol 50 fixed_initial []
  let ws1 :=
    if r.2.2 then r.2.1 ++ ["WARNING: implied-constraint closure hit iteration limit (50)."]
    else r.2.1
  let gfin := groups_out cfg r.1 eps_tol
  ⟨r.1, gfin.mpcs, sortedSet (ws1 ++ gfin.warns)⟩

/-! ## Driver constraints (`build_driver_constraints`) -/

/-- The driver-constraint map `(driver_node, dof) ↦ value`, insertion
ordered. -/
abbrev DriverMap := List ((ℕ × Dof) × ℚ)

/-- The fatal conflict message of `build_driver_constraints` (float values
are rendered with `float_to_str`; Python prints the raw float `repr`, which
has no exact rational counterpart). -/
def driver_conflict_msg (drv_node : ℕ) (dof : Dof) (old new : ℚ) (i j : ℕ) : String :=
  "Conflicting driver constraint for node " ++ Nat.repr drv_node ++ " dof " ++ dof.str ++
    ": " ++ float_to_str old ++ " vs " ++ float_to_str new ++ " from eps_" ++
    Nat.repr i ++ Nat.repr j

/-- The entry loop of `build_driver_constraints`: skip negligible strain
components; on a repeated `(driver_node, dof)` key compare against the
value already recorded (the first one) and fail when they are not within
`1e-12`; otherwise record the value. -/
def build_driver_loop (eps : Eps) (eps_tol : ℚ) :
    List DMapEntry → DriverMap → Except String DriverMap
  | [], drv => Except.ok drv
  | e :: rest, drv =>
    let i := e.1.1
    let j := e.1.2
    let drv_node := e.2.2.1
    let dof := e.2.2.2
    let val := epsAt eps i j
    if decide (|val| < eps_tol) then build_driver_loop eps eps_tol rest drv
    else
      match lookupAL drv (drv_node, dof) with
      | some v =>
        if ! is_close v val tol12 then
          Except.error (driver_conflict_msg drv_node dof v val i j)
        else build_driver_loop eps eps_tol rest drv
      | none => build_driver_loop eps eps_tol rest (drv ++ [((drv_node, dof), val)])

/-- `build_driver_constraints(eps, dummy_eps_map, eps_tol)`. -/
def build_driver_constraints (eps : Eps) (dmap : List DMapEntry) (eps_tol : ℚ) :
    Except String DriverMap :=
  build_driver_loop eps eps_tol dmap []

/-! ## Output rendering -/

/-- A zero-constraint line `"  {nid} {dch} 0.0"`. -/
def zero_line (p : ℕ × Dof) : String :=
  "  " ++ Nat.repr p.1 ++ " " ++ p.2.str ++ " 0.0"

/-- A driver-constraint line `"  {nid} {dch} {value}"`. -/
def driver_line (kv : (ℕ × Dof) × ℚ) : String :=
  "  " ++ Nat.repr kv.1.1 ++ " " ++ kv.1.2.str ++ " " ++ float_to_str kv.2

/-- Order driver entries by their `(node, dof)` key (Python sorts the
`(key, value)` tuples; keys are unique, so the key decides). -/
def drvLeP (a b : (ℕ × Dof) × ℚ) : Prop := pairLeP a.1 b.1

instance : DecidableRel drvLeP := fun a b => by
  unfold drvLeP
  infer_instance

instance : IsTrans ((ℕ × Dof) × ℚ) drvLeP :=
  ⟨fun a b c hab hbc => IsTrans.trans a.1 b.1 c.1 hab hbc⟩

instance : IsTotal ((ℕ × Dof) × ℚ) drvLeP :=
  ⟨fun a b => IsTotal.total a.1 b.1⟩

/-- The zero-constraint emission loop, including the defensive conflict
check the source performs per line (unreachable when `main`'s own conflict
check has already passed). -/
def emit_zero_loop (driver : DriverMap) : List (ℕ × Dof) → Except String (List String)
  | [] => Except.ok []
  | p :: rest =>
    if (lookupAL driver p).isSome then
      Except.error ("Conflict: node " ++ Nat.repr p.1 ++ " dof " ++ p.2.str ++
        " has both a driver constraint and a zero constraint.")
    else (emit_zero_loop driver rest).map (fun ls => zero_line p :: ls)

/-- The two header comment lines of the constraints block. -/
def cblock_hdr : List String :=
  ["!", "! --- ABSOLUTE CONSTRAINTS (must appear before " ++ sq ++ "multipoint" ++ sq ++ ") ---"]

/-- `emit_constraints_block(out, zero_constraints, driver_constraints)`:
the block header comments, then — only when some constraint exists — the
`constraints` keyword, the driver lines sorted by `(node, dof)`, and the
zero lines sorted by `(node, dof)`. -/
def emit_constraints_block (zero_constraints : Finset (ℕ × Dof)) (driver : DriverMap) :
    Except String (List String) :=
  if zero_constraints = ∅ ∧ driver.isEmpty then Except.ok (cblock_hdr ++ ["!   (none)"])
  else
    let dlines := (driver.insertionSort drvLeP).map driver_line
    (emit_zero_loop driver (sortedPairs zero_constraints)).map
      (fun zlines => cblock_hdr ++ ["constraints"] ++ dlines ++ zlines)

/-- Order `DUMMY_EPS_MAP` entries by their `(i, j)` key for the header echo. -/
def dmapLeP (a b : DMapEntry) : Prop := ijLeP a.1 b.1

instance : DecidableRel dmapLeP := fun a b => by
  unfold dmapLeP
  infer_instance

/-- Python `repr` of the vertex-id dict (keys are always `A..H` in insertion
order). -/
def vdictRepr (v : VertexIds) : String :=
  "\x7b" ++ String.intercalate ", "
    ([("A", v.A), ("B", v.B), ("C", v.C), ("D", v.D),
      ("E", v.E), ("F", v.F), ("G", v.G), ("H", v.H)].map
      (fun p => sq ++ p.1 ++ sq ++ ": " ++ Nat.repr p.2)) ++ "\x7d"

/-- The symbolic-equation lines for one pairing (cosmetic, comment-only
output; emitted only when the user answers yes to the symbolic prompt). -/
def symbolic_pair_lines (nodes : List Node) (required_kind : Option Kind) (p : Pairing) :
    List String :=
  match findNode nodes p.minus_node, findNode nodes p.plus_node with
  | some a, some b =>
    if requiredKindOk required_kind a b then
      [1, 2, 3].map (fun i =>
        let dof := (comp i).str
        let base := Nat.repr p.plus_node ++ " 1.0 " ++ dof ++ "  - " ++
          Nat.repr p.minus_node ++ " 1.0 " ++ dof
        let ext := String.join
          ([(1, p.delta.1), (2, p.delta.2.1), (3, p.delta.2.2)].map (fun jd =>
            if decide (jd.2 = 0) then ""
            else
              let coeff := (-jd.2 : ℚ)
              (if decide (0 ≤ coeff) then " + " else " - ") ++ float_to_str |coeff| ++
                " eps_\x7b" ++ Nat.repr i ++ Nat.repr jd.1 ++ "\x7d 1.0 " ++ dof))
        "!   " ++ base ++ ext ++ " = 0.")
    else []
  | _, _ => []

/-- `emit_symbolic_mpcs_for_pairs(out, label, pair_list, nodes, required_kind)`. -/
def emit_symbolic_mpcs_for_pairs (label : String) (pair_list : List Pairing)
    (nodes : List Node) (required_kind : Option Kind) : List String :=
  ["!", "! --- " ++ label ++ " (symbolic eps_ij) ---"] ++
    pair_list.flatMap (symbolic_pair_lines nodes required_kind)

/-! ## The `main` pipeline -/

/-- The data `parse_model_def` returns (file parsing itself is modelled only
for the node block, which is the part the claims address). -/
structure ParsedModel where
  Lx_decl : ℚ
  Ly_decl : ℚ
  Lz_decl : ℚ
  vertex_ids : VertexIds
  eps : Eps
  nodes : List Node
  fixed_dofs : Finset (ℕ × Dof)
  dummy_eps_map : List DMapEntry

/-- Everything `main` computes before opening the output file. -/
structure PipelineData where
  bounds : Bounds
  cnodes : List Node
  fp : FacePairings
  ep : List (String × List Pairing)
  vp : List Pairing
  fixed_final : Finset (ℕ × Dof)
  mpc_eqs : List (List Term)
  warnings : List String
  driver : DriverMap

/-- `main`'s conflict check: the first driver key that is also in the final
zero-constraint set raises. -/
def conflict_check (fixed : Finset (ℕ × Dof)) : DriverMap → Option String
  | [] => none
  | (k, val) :: rest =>
    if k ∈ fixed then
      some ("Conflict: driver constraint " ++ Nat.repr k.1 ++ " " ++ k.2.str ++ " = " ++
        float_to_str val ++ " but same DOF appears in ABS_CONSTRAINTS/implied-zero set.")
    else conflict_check fixed rest

/-- The computation phase of `main`, in source order: detect bounds,
classify, build the pairings, run the closure, build driver constraints,
and check for zero/driver conflicts.  Every step happens before the output
file is opened; an `error` therefore means nothing is written. -/
def run_pipeline (pm : ParsedModel) : Except String PipelineData :=
  match detect_bounds pm.nodes with
  | none => Except.error "min() arg is an empty sequence"
  | some bounds =>
    let cnodes := classify_boundary_nodes bounds pm.nodes tol_rel6
    let fp := build_face_pairings cnodes
    let ep := build_edge_pairings cnodes
    match build_vertex_pairings_from_vertices cnodes pm.vertex_ids with
    | Except.error e => Except.error e
    | Except.ok vp =>
      let cfg : PairingConfig := ⟨fp, ep, vp, cnodes, pm.eps, pm.dummy_eps_map⟩
      let co := closure_generate_all_mpcs cfg pm.fixed_dofs eps_tol14
      match build_driver_constraints pm.eps pm.dummy_eps_map eps_tol14 with
      | Except.error e => Except.error e
      | Except.ok driver =>
        match conflict_check co.fixed driver with
        | some msg => Except.error msg
        | none =>
          Except.ok ⟨bounds, cnodes, fp, ep, vp, co.fixed, co.mpcs, co.warnings, driver⟩

/-- The header comment lines of the output file. -/
def header_lines (in_name : String) (pm : ParsedModel) (d : PipelineData) : List String :=
  let b := d.bounds
  let Lx_det := qsub b.xmax b.xmin
  let Ly_det := qsub b.ymax b.ymin
  let Lz_det := qsub b.zmax b.zmin
  let dim_tol := qmul tol_rel6 (max |Lx_det| (max |Ly_det| (max |Lz_det| 1)))
  let mismatch := decide (dim_tol < |qsub Lx_det pm.Lx_decl|) ||
    decide (dim_tol < |qsub Ly_det pm.Ly_decl|) ||
    decide (dim_tol < |qsub Lz_det pm.Lz_decl|)
  ["! ------------------------------------------------------------",
   "! RVE PBC generator output (origin-agnostic bounds)",
   "! Input file : " ++ in_name,
   "!",
   "! Declared dimensions from input file:",
   "!   Lx_decl=" ++ float_to_str pm.Lx_decl ++ "  Ly_decl=" ++ float_to_str pm.Ly_decl ++
     "  Lz_decl=" ++ float_to_str pm.Lz_decl,
   "!",
   "! Detected bounds from node coordinates:",
   "!   xmin=" ++ float_to_str b.xmin ++ "  xmax=" ++ float_to_str b.xmax ++
     "   => Lx_det=" ++ float_to_str Lx_det,
   "!   ymin=" ++ float_to_str b.ymin ++ "  ymax=" ++ float_to_str b.ymax ++
     "   => Ly_det=" ++ float_to_str Ly_det,
   "!   zmin=" ++ float_to_str b.zmin ++ "  zmax=" ++ float_to_str b.zmax ++
     "   => Lz_det=" ++ float_to_str Lz_det] ++
  (if mismatch then
    ["!",
     "! WARNING: Declared (Lx,Ly,Lz) differ from detected (xmax-xmin, etc.).",
     "!          PBC generation uses DETECTED bounds for face classification and Δ-vectors."]
   else
    ["!",
     "! OK: Declared (Lx,Ly,Lz) consistent with detected bounds (within tolerance)."]) ++
  ["!", "! Vertex nodes: " ++ vdictRepr pm.vertex_ids] ++
  ["!", "! Enforced strain tensor eps_ij (row-wise):"] ++
  (pm.eps.enum.map (fun p =>
    "!   row " ++ Nat.repr (p.1 + 1) ++ ": " ++
      String.intercalate "  " (p.2.map float_to_str))) ++
  ["!", "! Dummy strain mapping (eps_ij -> dummy_node, driver_node, dof):"] ++
  ((pm.dummy_eps_map.insertionSort dmapLeP).map (fun e =>
    "!   eps_" ++ Nat.repr e.1.1 ++ Nat.repr e.1.2 ++ " -> dummy " ++ Nat.repr e.2.1 ++
      " " ++ e.2.2.2.str ++ ",  driver " ++ Nat.repr e.2.2.1 ++ " " ++ e.2.2.2.str)) ++
  (if d.warnings.isEmpty then []
   else ["!", "! --- WARNINGS ---"] ++ d.warnings.map (fun m => "! " ++ m))

/-- The optional symbolic section. -/
def symbolic_section (d : PipelineData) : List String :=
  ["!", "!",
   "!\t\t.... Full symbolic periodic RVE boundary conditions .....",
   "!\t\t          Assumes all terms are non-zero in strain",
   "!\t\t          tensor loading. No =0 absolute constraints",
   "!"] ++
  emit_symbolic_mpcs_for_pairs "Face-node MPCs, direction X" d.fp.X d.cnodes (some Kind.face) ++
  emit_symbolic_mpcs_for_pairs "Face-node MPCs, direction Y" d.fp.Y d.cnodes (some Kind.face) ++
  emit_symbolic_mpcs_for_pairs "Face-node MPCs, direction Z" d.fp.Z d.cnodes (some Kind.face) ++
  (d.ep.flatMap (fun lp =>
    emit_symbolic_mpcs_for_pairs ("Edge-node MPCs, edge type " ++ lp.1) lp.2 d.cnodes
      (some Kind.edge))) ++
  emit_symbolic_mpcs_for_pairs "Vertex-node MPCs, body diagonals" d.vp d.cnodes none

/-- The comment lines that precede the `multipoint` keyword. -/
def mpc_pre : List String :=
  ["!", "!",
   "!\t\t.... Full ready-to-use periodic RVE boundary conditions .....",
   "!\t\t          in WARP3D required format",
   "!", "!",
   "! --- MULTI-POINT CONSTRAINTS (MPCs) ---"]

/-- The trailing summary comments. -/
def mpc_trailer (d : PipelineData) : List String :=
  ["!",
   "! Total zero absolute constraints (final, incl. implied): " ++ Nat.repr d.fixed_final.card,
   "! Total driver constraints (from eps_ij): " ++ Nat.repr d.driver.length,
   "! Total MPC equations emitted: " ++ Nat.repr d.mpc_eqs.length,
   "! ------------------------------------------------------------"]

/-- The MPC section and the trailing summary comments. -/
def mpc_section (d : PipelineData) : List String :=
  mpc_pre ++ ["multipoint"] ++ d.mpc_eqs.map render_mpc_line ++ mpc_trailer d

/-- The full output file, as the list of lines `main` writes. -/
def write_output (in_name : String) (emit_symbolic : Bool) (pm : ParsedModel)
    (d : PipelineData) : Except String (List String) :=
  (emit_constraints_block d.fixed_final d.driver).map (fun cblock =>
    header_lines in_name pm d ++
    (if emit_symbolic then symbolic_section d else []) ++
    cblock ++
    mpc_section d)

/-- The post-parse behaviour of `main`: run the computation phase, then
render the output file.  `Except.error` models an uncaught fatal
`ValueError` — the output file is never opened on that path. -/
def main_model (in_name : String) (emit_symbolic : Bool) (pm : ParsedModel) :
    Except String (List String) :=
  (run_pipeline pm).bind (write_output in_name emit_symbolic pm)

/-! ## General lemmas about the dictionary model -/

theorem getLast?_cons (a : α) (l : List α) :
    (a :: l).getLast? = l.getLast?.or (some a) := by
  cases l with
  | nil => rfl
  | cons b bs =>
    rw [List.getLast?_cons_cons]
    have h : (b :: bs).getLast?.isSome := by
      rw [List.getLast?_isSome]
      simp
    obtain ⟨v, hv⟩ := Option.isSome_iff_exists.mp h
    rw [hv]
    rfl

theorem lookupAL_append [DecidableEq α] (l₁ l₂ : List (α × β)) (k : α) :
    lookupAL (l₁ ++ l₂) k = (lookupAL l₁ k).or (lookupAL l₂ k) := by
  induction l₁ with
  | nil => rfl
  | cons p rest ih =>
    by_cases h : p.1 = k
    · simp [lookupAL, h]
    · simpa [lookupAL, h] using ih

/-- Looking up a key the update did not touch. -/
theorem lookupAL_map_update_ne [DecidableEq α] (al : List (α × β)) (k : α) (v : β) (q : α)
    (hq : q ≠ k) :
    lookupAL (al.map (fun p => if p.1 = k then (k, v) else p)) q = lookupAL al q := by
  induction al with
  | nil => rfl
  | cons p rest ih =>
    by_cases h : p.1 = k
    · have h1 : ¬((k : α) = q) := fun e => hq e.symm
      have h2 : ¬(p.1 = q) := fun e => h1 (h ▸ e)
      simpa [lookupAL, List.map_cons, h, h1, h2] using ih
    · by_cases h2 : p.1 = q
      · simp [lookupAL, List.map_cons, h, h2, hq]
      · simpa [lookupAL, List.map_cons, h, h2] using ih

theorem lookupAL_insertAL [DecidableEq α] (al : List (α × β)) (k : α) (v : β) (q : α) :
    lookupAL (insertAL al k v) q = if q = k then some v else lookupAL al q := by
  by_cases hq : q = k
  · subst hq
    rw [insertAL, if_pos rfl]
    by_cases hany : al.any (fun p => decide (p.1 = q)) = true
    · rw [if_pos hany]
      induction al with
      | nil => simp at hany
      | cons p rest ih =>
        by_cases h : p.1 = q
        · simp [lookupAL, h]
        · simp only [List.any_cons, decide_eq_true_eq, h, Bool.false_or] at hany
          simpa [lookupAL, h] using ih hany
    · rw [if_neg hany]
      have hnone : lookupAL al q = none := by
        simp only [List.any_eq_true, decide_eq_true_eq, not_exists, not_and] at hany
        induction al with
        | nil => rfl
        | cons p rest ih =>
          have h : ¬(p.1 = q) := hany p (by simp)
          simpa [lookupAL, h] using ih (fun x hx => hany x (by simp [hx]))
      rw [lookupAL_append, hnone]
      simp [lookupAL]
  · rw [insertAL, if_neg hq]
    by_cases hany : al.any (fun p => decide (p.1 = k)) = true
    · rw [if_pos hany]
      exact lookupAL_map_update_ne al k v q hq
    · rw [if_neg hany, lookupAL_append]
      have h0 : ¬(k = q) := fun e => hq e.symm
      have h1 : lookupAL [(k, v)] q = none := by simp [lookupAL, h0]
      rw [h1]
      cases lookupAL al q <;> rfl

/-- The dict built by a comprehension maps a key to the value of the **last**
input pair carrying that key. -/
theorem lookupAL_buildAL [DecidableEq α] (l : List (α × β)) (k : α) :
    lookupAL (buildAL l) k =
      ((l.filter (fun p => decide (p.1 = k))).map Prod.snd).getLast? := by
  suffices h : ∀ acc : List (α × β),
      lookupAL (l.foldl (fun al p => insertAL al p.1 p.2) acc) k =
        ((l.filter (fun p => decide (p.1 = k))).map Prod.snd).getLast?.or (lookupAL acc k) by
    have h2 := h []
    rw [buildAL, h2]
    have : lookupAL ([] : List (α × β)) k = none := rfl
    rw [this]
    cases ((l.filter (fun p => decide (p.1 = k))).map Prod.snd).getLast? <;> rfl
  induction l with
  | nil =>
    intro acc
    simp
  | cons p rest ih =>
    intro acc
    rw [List.foldl_cons, ih]
    by_cases h : p.1 = k
    · rw [List.filter_cons, if_pos (by simpa using h), List.map_cons, getLast?_cons,
        lookupAL_insertAL, if_pos h.symm]
      cases ((rest.filter (fun p => decide (p.1 = k))).map Prod.snd).getLast? <;> rfl
    · rw [List.filter_cons, if_neg (by simpa using h), lookupAL_insertAL,
        if_neg (fun e => h e.symm)]

/-- A successful lookup pins down an element of the association list. -/
theorem lookupAL_mem [DecidableEq α] {al : List (α × β)} {k : α} {v : β}
    (h : lookupAL al k = some v) : (k, v) ∈ al := by
  induction al with
  | nil => cases h
  | cons p rest ih =>
    by_cases hp : p.1 = k
    · rw [lookupAL, if_pos hp] at h
      obtain ⟨p1, p2⟩ := p
      cases hp
      cases h
      exact List.mem_cons_self _ _
    · rw [lookupAL, if_neg hp] at h
      exact List.mem_cons_of_mem _ (ih h)

/-! ## General lemmas about sorting and the pipeline plumbing -/

theorem mem_sortedPairs (s : Finset (ℕ × Dof)) (p : ℕ × Dof) :
    p ∈ sortedPairs s ↔ p ∈ s := by
  obtain ⟨m, hm⟩ := s
  induction m using Quotient.inductionOn with
  | h l =>
    show p ∈ l.insertionSort pairLeP ↔ _
    rw [(l.perm_insertionSort pairLeP).mem_iff]
    rfl

theorem sorted_sortedPairs (s : Finset (ℕ × Dof)) : List.Sorted pairLeP (sortedPairs s) := by
  obtain ⟨m, hm⟩ := s
  induction m using Quotient.inductionOn with
  | h l => exact l.sorted_insertionSort pairLeP

/-- `main`'s conflict check succeeds exactly when no driver key is in the
final zero-constraint set. -/
theorem conflict_check_eq_none_iff (fixed : Finset (ℕ × Dof)) (drv : DriverMap) :
    conflict_check fixed drv = none ↔ ∀ kv ∈ drv, kv.1 ∉ fixed := by
  induction drv with
  | nil => simp [conflict_check]
  | cons kv rest ih =>
    by_cases h : kv.1 ∈ fixed
    · simp [conflict_check, h]
    · simp [conflict_check, h, ih]

/-- With a required kind, the generator's output is unchanged when the pair
list is first restricted to the pairings that pass the kind guard: pairings
whose endpoints do not both have the required kind contribute nothing. -/
theorem generate_filter_kind (pl : List Pairing) (nodes : List Node) (eps : Eps)
    (dmap : List DMapEntry) (fixed : Finset (ℕ × Dof)) (k : Kind) (et ot : ℚ) :
    generate_dummy_mpcs_for_pairs pl nodes eps dmap fixed (some k) et ot =
      generate_dummy_mpcs_for_pairs (pl.filter (pairKindOk nodes k)) nodes eps dmap fixed
        (some k) et ot := by
  induction pl with
  | nil => rfl
  | cons p rest ih =>
    rw [List.filter_cons]
    cases hm : findNode nodes p.minus_node with
    | none =>
      have hg : pairKindOk nodes k p = false := by rw [pairKindOk, hm]
      rw [hg]
      simp only [Bool.false_eq_true, if_false]
      simp only [generate_dummy_mpcs_for_pairs, hm]
      exact ih
    | some a =>
      cases hp : findNode nodes p.plus_node with
      | none =>
        have hg : pairKindOk nodes k p = false := by rw [pairKindOk, hm, hp]
        rw [hg]
        simp only [Bool.false_eq_true, if_false]
        simp only [generate_dummy_mpcs_for_pairs, hm, hp]
        exact ih
      | some b =>
        have hg : pairKindOk nodes k p = requiredKindOk (some k) a b := by
          rw [pairKindOk, hm, hp]
        cases hk : requiredKindOk (some k) a b with
        | false =>
          rw [hg, hk]
          simp only [Bool.false_eq_true, if_false]
          simp only [generate_dummy_mpcs_for_pairs, hm, hp, hk]
          simp only [Bool.false_eq_true, if_false]
          exact ih
        | true =>
          rw [hg, hk]
          simp only [if_true]
          simp only [generate_dummy_mpcs_for_pairs, hm, hp, hk, if_true]
          rw [ih]

/-- Membership in an updated dict comes from the old dict or is the new
pair. -/
theorem mem_insertAL [DecidableEq α] {al : List (α × β)} {k : α} {v : β} {p : α × β}
    (h : p ∈ insertAL al k v) : p ∈ al ∨ p = (k, v) := by
  rw [insertAL] at h
  by_cases hany : al.any (fun q => decide (q.1 = k)) = true
  · rw [if_pos hany] at h
    obtain ⟨q, hq, hfq⟩ := List.mem_map.mp h
    by_cases hk : q.1 = k
    · rw [if_pos hk] at hfq
      exact Or.inr hfq.symm
    · rw [if_neg hk] at hfq
      exact Or.inl (hfq ▸ hq)
  · rw [if_neg hany] at h
    rcases List.mem_append.mp h with h1 | h1
    · exact Or.inl h1
    · exact Or.inr (List.mem_singleton.mp h1)

theorem mem_buildAL_aux [DecidableEq α] {p : α × β} :
    ∀ (l acc : List (α × β)),
      p ∈ l.foldl (fun al q => insertAL al q.1 q.2) acc → p ∈ acc ∨ p ∈ l
  | [], _, h => Or.inl h
  | q :: rest, acc, h => by
    rw [List.foldl_cons] at h
    rcases mem_buildAL_aux rest (insertAL acc q.1 q.2) h with h1 | h1
    · rcases mem_insertAL h1 with h2 | h2
      · exact Or.inl h2
      · exact Or.inr (h2 ▸ List.mem_cons_self _ _)
    · exact Or.inr (List.mem_cons_of_mem _ h1)

/-- Every entry of a comprehension-built dict is one of the input pairs. -/
theorem mem_buildAL [DecidableEq α] {l : List (α × β)} {p : α × β}
    (h : p ∈ buildAL l) : p ∈ l := by
  rcases mem_buildAL_aux l [] h with h1 | h1
  · cases h1
  · exact h1

/-- What a successful `mkPairing` produces. -/
theorem mkPairing_some {nodes : List Node} {mid pid : ℕ} {pr : Pairing}
    (h : mkPairing nodes mid pid = some pr) :
    pr.minus_node = mid ∧ pr.plus_node = pid := by
  rw [mkPairing] at h
  cases hm : findNode nodes mid with
  | none => rw [hm] at h; cases h
  | some a =>
    cases hp : findNode nodes pid with
    | none => rw [hm, hp] at h; cases h
    | some b =>
      rw [hm, hp] at h
      cases h
      exact ⟨rfl, rfl⟩

/-- The pairings `vertexPairLoop` returns carry exactly the listed
`(plus, minus)` id pairs. -/
theorem vertexPairLoop_ids (nodes : List Node) :
    ∀ (defs : List (String × String × ℕ × ℕ)) (out : List Pairing),
      vertexPairLoop nodes defs = Except.ok out →
      ∀ pr ∈ out, ∃ d ∈ defs, pr.minus_node = d.2.2.2 ∧ pr.plus_node = d.2.2.1 := by
  intro defs
  induction defs with
  | nil =>
    intro out h pr hpr
    cases h
    cases hpr
  | cons d rest ih =>
    intro out h pr hpr
    obtain ⟨pl, ml, pid, mid⟩ := d
    rw [vertexPairLoop] at h
    by_cases hmiss : ((findNode nodes pid).isNone || (findNode nodes mid).isNone) = true
    · rw [if_pos hmiss] at h
      cases h
    · rw [if_neg hmiss] at h
      cases hmk : mkPairing nodes mid pid with
      | none =>
        rw [hmk] at h
        cases h
        cases hpr
      | some pr0 =>
        rw [hmk] at h
        cases hloop : vertexPairLoop nodes rest with
        | error e => rw [hloop] at h; cases h
        | ok out' =>
          rw [hloop] at h
          cases h
          rcases List.mem_cons.mp hpr with h1 | h1
          · obtain ⟨hmn, hpn⟩ := mkPairing_some hmk
            exact ⟨(pl, ml, pid, mid), List.mem_cons_self _ _, h1 ▸ hmn, h1 ▸ hpn⟩
          · obtain ⟨d', hd', hids⟩ := ih out' hloop pr h1
            exact ⟨d', List.mem_cons_of_mem _ hd', hids⟩

/-! ## Concrete inputs used by witnesses and counterexamples -/

/-- The zero strain tensor. -/
def epsZero : Eps := [[0, 0, 0], [0, 0, 0], [0, 0, 0]]

/-- Eight nodes at the corners of the unit cube `[0,1]³`, ids 1..8. -/
def cubeNodes : List Node :=
  [⟨1, 0, 0, 0, ∅, Kind.unset⟩, ⟨2, 1, 0, 0, ∅, Kind.unset⟩,
   ⟨3, 1, 1, 0, ∅, Kind.unset⟩, ⟨4, 0, 1, 0, ∅, Kind.unset⟩,
   ⟨5, 0, 0, 1, ∅, Kind.unset⟩, ⟨6, 1, 0, 1, ∅, Kind.unset⟩,
   ⟨7, 1, 1, 1, ∅, Kind.unset⟩, ⟨8, 0, 1, 1, ∅, Kind.unset⟩]

/-- Vertex labels A..H assigned to nodes 1..8 in order. -/
def cubeVIds : VertexIds := ⟨1, 2, 3, 4, 5, 6, 7, 8⟩

/-- The unit-cube model: zero strain, empty dummy map, no caller-supplied
absolute constraints. -/
def cubePM : ParsedModel := ⟨1, 1, 1, cubeVIds, epsZero, cubeNodes, ∅, []⟩

/-- The classified unit-cube nodes. -/
def cubeCNodes : List Node :=
  classify_boundary_nodes ((detect_bounds cubeNodes).getD ⟨0, 0, 0, 0, 0, 0⟩) cubeNodes tol_rel6

/-- The unit cube's vertex pairings. -/
def cubeVP : List Pairing :=
  (build_vertex_pairings_from_vertices cubeCNodes cubeVIds).toOption.getD []

/-- The full pairing configuration of the unit-cube model. -/
def cubeCfg : PairingConfig :=
  ⟨build_face_pairings cubeCNodes, build_edge_pairings cubeCNodes, cubeVP, cubeCNodes,
    epsZero, []⟩

/-- A strain tensor with only `eps_11 = 1/2` nonzero. -/
def epsE11 : Eps := [[Rat.divInt 1 2, 0, 0], [0, 0, 0], [0, 0, 0]]

/-- A cube model whose driver node 100 carries an `ABS_CONSTRAINTS` zero
constraint on `u` while `eps_11 ≠ 0` drives the same DOF: the conflict
case. -/
def conflictPM : ParsedModel :=
  ⟨1, 1, 1, cubeVIds, epsE11, cubeNodes, {(100, Dof.u)}, [((1, 1), (200, 100, Dof.u))]⟩

/-! ## C1: the per-pairing, per-DOF resolution policy -/

/-- **C1.**  For each pairing and DOF, under the current FixedDofSet: an
empty assembled term list yields no equation and no implied constraint;
exactly one term whose coefficient magnitude is within `1e-12` of 1 and
whose node is physical (present in the node dict) yields the implied zero
constraint `(node, dof)`; a single term with any other coefficient or on a
non-physical node yields only the unresolved-residual warning; two or more
terms yield exactly one MPC equation containing the terms in their original
assembly order, rendered as a sum equal to zero.  The final conjunct ties
the per-DOF step to `generate_dummy_mpcs_for_pairs` itself. -/
theorem C1_resolution_policy (nodes : List Node) (eps : Eps) (dmap : List DMapEntry)
    (fixed : Finset (ℕ × Dof)) (et : ℚ) (p : Pairing) (i : ℕ) :
    ((build_dof_terms eps dmap fixed et p i).1 = [] →
      process_pair_dof nodes eps dmap fixed et tol12 p i =
        ⟨[], ∅, (build_dof_terms eps dmap fixed et p i).2⟩) ∧
    (∀ c n d, (build_dof_terms eps dmap fixed et p i).1 = [(c, n, d)] →
      (findNode nodes n).isSome = true → |(|c| - 1)| ≤ tol12 →
      process_pair_dof nodes eps dmap fixed et tol12 p i =
        ⟨[], {(n, d)}, (build_dof_terms eps dmap fixed et p i).2⟩) ∧
    (∀ c n d, (build_dof_terms eps dmap fixed et p i).1 = [(c, n, d)] →
      ¬((findNode nodes n).isSome = true ∧ |(|c| - 1)| ≤ tol12) →
      process_pair_dof nodes eps dmap fixed et tol12 p i =
        ⟨[], ∅, (build_dof_terms eps dmap fixed et p i).2 ++ [single_term_warning (c, n, d)]⟩) ∧
    (2 ≤ (build_dof_terms eps dmap fixed et p i).1.length →
      process_pair_dof nodes eps dmap fixed et tol12 p i =
        ⟨[(build_dof_terms eps dmap fixed et p i).1], ∅,
          (build_dof_terms eps dmap fixed et p i).2⟩ ∧
      ∃ body, render_mpc_line (build_dof_terms eps dmap fixed et p i).1 = body ++ " = 0.") ∧
    (∀ rk a b, findNode nodes p.minus_node = some a → findNode nodes p.plus_node = some b →
      requiredKindOk rk a b = true →
      generate_dummy_mpcs_for_pairs [p] nodes eps dmap fixed rk et tol12 =
        genCombine (process_pair_dof nodes eps dmap fixed et tol12 p 1)
          (genCombine (process_pair_dof nodes eps dmap fixed et tol12 p 2)
            (process_pair_dof nodes eps dmap fixed et tol12 p 3))) := by
  refine ⟨?_, ?_, ?_, ?_, ?_⟩
  · intro h
    simp only [process_pair_dof, h, resolve_terms, List.append_nil]
  · intro c n d h hphys htol
    have hc : is_close |c| 1 tol12 = true := (is_close_iff _ _ _).mpr htol
    simp only [process_pair_dof, h, resolve_terms, hphys, hc, Bool.and_self, if_true,
      List.append_nil]
  · intro c n d h hneg
    have hcond : ((findNode nodes n).isSome && is_close |c| 1 tol12) = false := by
      by_cases h1 : (findNode nodes n).isSome = true
      · have h2 : ¬(|(|c| - 1)| ≤ tol12) := fun ht => hneg ⟨h1, ht⟩
        have h3 : is_close |c| 1 tol12 = false := by
          cases h4 : is_close |c| 1 tol12 with
          | false => rfl
          | true => exact absurd ((is_close_iff _ _ _).mp h4) h2
        rw [h1, h3]
        rfl
      · have h1f : (findNode nodes n).isSome = false := by
          cases h4 : (findNode nodes n).isSome with
          | false => rfl
          | true => exact absurd h4 h1
        rw [h1f]
        rfl
    simp only [process_pair_dof, h, resolve_terms, hcond, Bool.false_eq_true, if_false]
  · intro hlen
    rcases hterms : (build_dof_terms eps dmap fixed et p i).1 with _ | ⟨t1, _ | ⟨t2, r⟩⟩
    · rw [hterms] at hlen
      cases hlen
    · rw [hterms] at hlen
      exact absurd hlen (by simp)
    · constructor
      · simp only [process_pair_dof, hterms, resolve_terms, List.append_nil]
      · exact ⟨_, rfl⟩
  · intro rk a b hm hp hk
    simp only [generate_dummy_mpcs_for_pairs, hm, hp, hk, if_true, process_pair, genCombine,
      List.append_nil, Finset.union_empty]

/-- Witness for C1: on the unit cube's body-diagonal pairing `1 → 7`, DOF
`u`, the assembled list has the two physical terms and the step emits them
as one MPC equation. -/
theorem C1_resolution_policy_witness :
    process_pair_dof cubeCNodes epsZero [] ∅ eps_tol14 tol12 ⟨1, 7, (1, 1, 1)⟩ 1 =
      ⟨[[((1 : ℚ), 7, Dof.u), ((-1 : ℚ), 1, Dof.u)]], ∅, []⟩ :=
  ((C1_resolution_policy cubeCNodes epsZero [] ∅ eps_tol14 ⟨1, 7, (1, 1, 1)⟩ 1).2.2.2.1
    (by decide)).1

/-! ## C2: closure monotonicity and idempotence -/

/-- **C2.**  The closure iteration is monotone and idempotent: the fixed
set only grows across iterations of the closure loop; adding an
already-present `(node, dof)` pair changes nothing; a run that stops before
the iteration cap ends on a closed set; and re-running the closure from an
already-closed set leaves it unchanged.  The final conjunct ties the loop
to `closure_generate_all_mpcs`. -/
theorem C2_closure_monotone_idempotent (cfg : PairingConfig) (et : ℚ) :
    (∀ n fixed ws, fixed ⊆ (closure_loop cfg et n fixed ws).1) ∧
    (∀ n fixed ws pr, pr ∈ fixed →
      closure_loop cfg et n (insert pr fixed) ws = closure_loop cfg et n fixed ws) ∧
    (∀ n fixed ws, (closure_loop cfg et n fixed ws).2.2 = false →
      implied_total cfg (closure_loop cfg et n fixed ws).1 et ⊆
        (closure_loop cfg et n fixed ws).1) ∧
    (∀ fixed, implied_total cfg fixed et ⊆ fixed →
      ∀ n ws, 1 ≤ n → (closure_loop cfg et n fixed ws).1 = fixed) ∧
    (∀ f0, (closure_generate_all_mpcs cfg f0 et).fixed = (closure_loop cfg et 50 f0 []).1) := by
  have hgrow : ∀ n fixed ws, fixed ⊆ (closure_loop cfg et n fixed ws).1 := by
    intro n
    induction n with
    | zero => intro fixed ws; exact Finset.Subset.refl _
    | succ m ih =>
      intro fixed ws
      simp only [closure_loop]
      by_cases h : (groups_out cfg fixed et).implied \ fixed = ∅
      · rw [if_pos h]
      · rw [if_neg h]
        exact (Finset.subset_union_left).trans (ih _ _)
  refine ⟨hgrow, ?_, ?_, ?_, ?_⟩
  · intro n fixed ws pr hpr
    rw [Finset.insert_eq_self.mpr hpr]
  · intro n
    induction n with
    | zero =>
      intro fixed ws h
      cases h
    | succ m ih =>
      intro fixed ws h
      simp only [closure_loop] at h ⊢
      by_cases hnew : (groups_out cfg fixed et).implied \ fixed = ∅
      · rw [if_pos hnew] at h ⊢
        exact Finset.sdiff_eq_empty_iff_subset.mp hnew
      · rw [if_neg hnew] at h ⊢
        exact ih _ _ h
  · intro fixed hclosed n ws hn
    cases n with
    | zero => cases hn
    | succ m =>
      have hnew : (groups_out cfg fixed et).implied \ fixed = ∅ :=
        Finset.sdiff_eq_empty_iff_subset.mpr hclosed
      simp only [closure_loop, hnew, if_pos]
  · intro f0
    rfl

set_option maxRecDepth 100000 in
/-- Witness for C2: on the unit-cube configuration, `{(1, u)}` absorbs a
re-inserted pair, and the empty set is already closed, so the loop returns
it unchanged. -/
theorem C2_closure_monotone_idempotent_witness :
    closure_loop cubeCfg eps_tol14 50 (insert (1, Dof.u) {(1, Dof.u)}) [] =
      closure_loop cubeCfg eps_tol14 50 {(1, Dof.u)} [] ∧
    (closure_loop cubeCfg eps_tol14 50 ∅ []).1 = ∅ :=
  ⟨(C2_closure_monotone_idempotent cubeCfg eps_tol14).2.1 50 {(1, Dof.u)} [] (1, Dof.u)
    (by decide),
   (C2_closure_monotone_idempotent cubeCfg eps_tol14).2.2.2.1 ∅ (by decide) 50 [] (by decide)⟩

/-! ## C3: pairing kinds -/

/-- Every pairing an edge group builds joins two kind-`edge` nodes (the
group's node lists are filtered on kind and exact face set before keying). -/
theorem edgePairList_kinds (nodes : List Node) (mf pf : Face × Face) (pr : Pairing)
    (h : pr ∈ edgePairList nodes mf pf) :
    (∃ nd ∈ nodes, nd.nid = pr.minus_node ∧ nd.kind = Kind.edge) ∧
    (∃ nd ∈ nodes, nd.nid = pr.plus_node ∧ nd.kind = Kind.edge) := by
  simp only [edgePairList] at h
  split at h
  · cases h
  · obtain ⟨kv, hkv, hf⟩ := List.mem_filterMap.mp h
    cases hlook : lookupAL (buildAL ((nodes.filter fun nd =>
        decide (nd.kind = Kind.edge) && decide (nd.faces = {pf.1, pf.2})).map fun nd =>
          (round_coord (axis_coord nd (freeAxis mf.1.axis mf.2.axis)), nd.nid))) kv.1 with
    | none =>
      rw [hlook] at hf
      cases hf
    | some pid =>
      rw [hlook] at hf
      obtain ⟨hmn, hpn⟩ := mkPairing_some hf
      constructor
      · obtain ⟨nd, hnd, hndeq⟩ := List.mem_map.mp (mem_buildAL hkv)
        obtain ⟨hin, hflt⟩ := List.mem_filter.mp hnd
        simp only [Bool.and_eq_true, decide_eq_true_eq] at hflt
        refine ⟨nd, hin, ?_, hflt.1⟩
        rw [hmn, ← hndeq]
      · obtain ⟨nd, hnd, hndeq⟩ := List.mem_map.mp (mem_buildAL (lookupAL_mem hlook))
        obtain ⟨hin, hflt⟩ := List.mem_filter.mp hnd
        simp only [Bool.and_eq_true, decide_eq_true_eq] at hflt
        refine ⟨nd, hin, ?_, hflt.1⟩
        rw [hpn]
        exact congrArg Prod.snd hndeq

/-- **Counterexample to C3.**  On a box `[0,1]³` whose only X-face nodes are
the two corners and the two edge-kind nodes `3 = (0,0,1/2)`,
`4 = (1,0,1/2)`, the face-pairing builder pairs nodes 3 and 4 into the X
face group even though both are of kind `edge` — `_pair_face_nodes` filters
on the face *tag* only, never on `kind == "face"`, so a face Pairing need
not join two kind-`face` nodes. -/
theorem C3_counterexample :
    (build_face_pairings (classify_boundary_nodes
        ((detect_bounds [⟨1, 0, 0, 0, ∅, Kind.unset⟩, ⟨2, 1, 1, 1, ∅, Kind.unset⟩,
          ⟨3, 0, 0, Rat.divInt 1 2, ∅, Kind.unset⟩,
          ⟨4, 1, 0, Rat.divInt 1 2, ∅, Kind.unset⟩]).getD ⟨0, 0, 0, 0, 0, 0⟩)
        [⟨1, 0, 0, 0, ∅, Kind.unset⟩, ⟨2, 1, 1, 1, ∅, Kind.unset⟩,
         ⟨3, 0, 0, Rat.divInt 1 2, ∅, Kind.unset⟩,
         ⟨4, 1, 0, Rat.divInt 1 2, ∅, Kind.unset⟩] tol_rel6)).X =
      [⟨3, 4, (1, 0, 0)⟩] ∧
    ((classify_boundary_nodes
        ((detect_bounds [⟨1, 0, 0, 0, ∅, Kind.unset⟩, ⟨2, 1, 1, 1, ∅, Kind.unset⟩,
          ⟨3, 0, 0, Rat.divInt 1 2, ∅, Kind.unset⟩,
          ⟨4, 1, 0, Rat.divInt 1 2, ∅, Kind.unset⟩]).getD ⟨0, 0, 0, 0, 0, 0⟩)
        [⟨1, 0, 0, 0, ∅, Kind.unset⟩, ⟨2, 1, 1, 1, ∅, Kind.unset⟩,
         ⟨3, 0, 0, Rat.divInt 1 2, ∅, Kind.unset⟩,
         ⟨4, 1, 0, Rat.divInt 1 2, ∅, Kind.unset⟩] tol_rel6).map
      (fun nd => (nd.nid, nd.kind))) =
      [(1, Kind.vertex), (2, Kind.vertex), (3, Kind.edge), (4, Kind.edge)] := by
  constructor
  · decide
  · decide

/-- **C3 (amended).**  The kind restriction is enforced at MPC-generation
time, not at face-pairing construction: with a required kind the generator
processes exactly the pairings whose endpoints both carry that kind (so
face-group equations use kind-`face` endpoints and edge-group equations use
kind-`edge` endpoints); every pairing built by `build_edge_pairings` joins
two kind-`edge` nodes; and the vertex pairings join only the eight
caller-named vertex ids. -/
theorem C3_amended :
    (∀ (pl : List Pairing) (nodes : List Node) (eps : Eps) (dmap : List DMapEntry)
      (fixed : Finset (ℕ × Dof)) (k : Kind) (et ot : ℚ),
      generate_dummy_mpcs_for_pairs pl nodes eps dmap fixed (some k) et ot =
        generate_dummy_mpcs_for_pairs (pl.filter (pairKindOk nodes k)) nodes eps dmap fixed
          (some k) et ot) ∧
    (∀ (nodes : List Node) (lbl : String) (pl : List Pairing) (pr : Pairing),
      (lbl, pl) ∈ build_edge_pairings nodes → pr ∈ pl →
      (∃ nd ∈ nodes, nd.nid = pr.minus_node ∧ nd.kind = Kind.edge) ∧
      (∃ nd ∈ nodes, nd.nid = pr.plus_node ∧ nd.kind = Kind.edge)) ∧
    (∀ (nodes : List Node) (v : VertexIds) (vps : List Pairing),
      build_vertex_pairings_from_vertices nodes v = Except.ok vps →
      ∀ pr ∈ vps, pr.minus_node ∈ [v.A, v.D, v.B, v.E] ∧
        pr.plus_node ∈ [v.G, v.F, v.H, v.C]) := by
  refine ⟨fun pl nodes eps dmap fixed k et ot =>
    generate_filter_kind pl nodes eps dmap fixed k et ot, ?_, ?_⟩
  · intro nodes lbl pl pr hmem hpr
    obtain ⟨s, hs, hseq⟩ := List.mem_map.mp hmem
    have hpl : pl = edgePairList nodes s.2.1 s.2.2 := by
      have := congrArg Prod.snd hseq
      exact this.symm
    exact edgePairList_kinds nodes s.2.1 s.2.2 pr (hpl ▸ hpr)
  · intro nodes v vps hok pr hpr
    obtain ⟨d, hd, hmn, hpn⟩ := vertexPairLoop_ids nodes _ vps hok pr hpr
    simp only [List.mem_cons, List.not_mem_nil, or_false] at hd
    rcases hd with h | h | h | h <;> subst h <;>
      exact ⟨by rw [hmn]; simp, by rw [hpn]; simp⟩

/-- Witness for C3 (amended): the unit cube's first body-diagonal pairing
joins named vertex ids (minus `A = 1`, plus `G = 7`). -/
theorem C3_amended_witness :
    (Pairing.mk 1 7 (1, 1, 1)).minus_node ∈
      [cubeVIds.A, cubeVIds.D, cubeVIds.B, cubeVIds.E] ∧
    (Pairing.mk 1 7 (1, 1, 1)).plus_node ∈
      [cubeVIds.G, cubeVIds.F, cubeVIds.H, cubeVIds.C] :=
  C3_amended.2.2 cubeCNodes cubeVIds
    [⟨1, 7, (1, 1, 1)⟩, ⟨4, 6, (1, -1, 1)⟩, ⟨2, 8, (-1, 1, 1)⟩, ⟨5, 3, (1, 1, -1)⟩]
    (by decide) ⟨1, 7, (1, 1, 1)⟩ (by decide)

/-! ## C4: the unit-cube scenario -/

set_option maxRecDepth 100000 in
/-- **Counterexample to C4.**  On the unit cube with zero strain, empty
dummy map and no caller constraints, the run does *not* produce zero MPC
equations and three implied constraints: it produces 12 MPC equations and
an empty final fixed set (with zero strain every body-diagonal vertex
equation keeps both physical terms, so nothing ever collapses). -/
theorem C4_counterexample :
    ¬((run_pipeline cubePM).map (fun d => (d.mpc_eqs.length, d.fixed_final.card)) =
      Except.ok (0, 3)) := by
  decide

set_option maxRecDepth 100000 in
/-- **C4 (amended).**  The unit-cube scenario produces *no* implied zero
constraints and exactly 12 MPC equations: one per body-diagonal vertex
pairing `(1,7), (4,6), (2,8), (5,3)` and DOF; the 8 corner nodes are
vertex-kind, so the face and edge groups contribute nothing. -/
theorem C4_amended :
    (run_pipeline cubePM).map (fun d => (d.fixed_final, d.mpc_eqs)) =
      Except.ok (∅,
        [[((1 : ℚ), 7, Dof.u), ((-1 : ℚ), 1, Dof.u)],
         [((1 : ℚ), 7, Dof.v), ((-1 : ℚ), 1, Dof.v)],
         [((1 : ℚ), 7, Dof.w), ((-1 : ℚ), 1, Dof.w)],
         [((1 : ℚ), 6, Dof.u), ((-1 : ℚ), 4, Dof.u)],
         [((1 : ℚ), 6, Dof.v), ((-1 : ℚ), 4, Dof.v)],
         [((1 : ℚ), 6, Dof.w), ((-1 : ℚ), 4, Dof.w)],
         [((1 : ℚ), 8, Dof.u), ((-1 : ℚ), 2, Dof.u)],
         [((1 : ℚ), 8, Dof.v), ((-1 : ℚ), 2, Dof.v)],
         [((1 : ℚ), 8, Dof.w), ((-1 : ℚ), 2, Dof.w)],
         [((1 : ℚ), 3, Dof.u), ((-1 : ℚ), 5, Dof.u)],
         [((1 : ℚ), 3, Dof.v), ((-1 : ℚ), 5, Dof.v)],
         [((1 : ℚ), 3, Dof.w), ((-1 : ℚ), 5, Dof.w)]]) := by
  decide

/-! ## C5: the zero/driver conflict is fatal and pre-output -/

/-- **C5.**  If, after closure and driver-constraint derivation, some
`(node, dof)` key is present in both the final FixedDofSet and the
DriverConstraintMap, the run raises a fatal error: `main_model` returns
`Except.error` and never an output line list.  In the model (as in `main`,
which performs this check before `open(out_name, "w")`), the error happens
inside `run_pipeline`, before any output rendering. -/
theorem C5_conflict_fatal_before_output (in_name : String) (sym : Bool) (pm : ParsedModel)
    (bounds : Bounds) (vp : List Pairing) (driver : DriverMap)
    (hb : detect_bounds pm.nodes = some bounds)
    (hv : build_vertex_pairings_from_vertices
      (classify_boundary_nodes bounds pm.nodes tol_rel6) pm.vertex_ids = Except.ok vp)
    (hd : build_driver_constraints pm.eps pm.dummy_eps_map eps_tol14 = Except.ok driver)
    (hconf : ∃ kv ∈ driver, kv.1 ∈ (closure_generate_all_mpcs
      ⟨build_face_pairings (classify_boundary_nodes bounds pm.nodes tol_rel6),
       build_edge_pairings (classify_boundary_nodes bounds pm.nodes tol_rel6), vp,
       classify_boundary_nodes bounds pm.nodes tol_rel6, pm.eps, pm.dummy_eps_map⟩
      pm.fixed_dofs eps_tol14).fixed) :
    (∃ msg, main_model in_name sym pm = Except.error msg) ∧
    ∀ L, main_model in_name sym pm ≠ Except.ok L := by
  have hcc : conflict_check (closure_generate_all_mpcs
      ⟨build_face_pairings (classify_boundary_nodes bounds pm.nodes tol_rel6),
       build_edge_pairings (classify_boundary_nodes bounds pm.nodes tol_rel6), vp,
       classify_boundary_nodes bounds pm.nodes tol_rel6, pm.eps, pm.dummy_eps_map⟩
      pm.fixed_dofs eps_tol14).fixed driver ≠ none := by
    intro hnone
    obtain ⟨kv, hkv, hin⟩ := hconf
    exact (conflict_check_eq_none_iff _ _).mp hnone kv hkv hin
  cases hc : conflict_check (closure_generate_all_mpcs
      ⟨build_face_pairings (classify_boundary_nodes bounds pm.nodes tol_rel6),
       build_edge_pairings (classify_boundary_nodes bounds pm.nodes tol_rel6), vp,
       classify_boundary_nodes bounds pm.nodes tol_rel6, pm.eps, pm.dummy_eps_map⟩
      pm.fixed_dofs eps_tol14).fixed driver with
  | none => exact absurd hc hcc
  | some msg =>
    have hrun : run_pipeline pm = Except.error msg := by
      simp only [run_pipeline, hb, hv, hd, hc]
    refine ⟨⟨msg, ?_⟩, ?_⟩
    · rw [main_model, hrun]
      rfl
    · intro L hL
      rw [main_model, hrun] at hL
      cases hL

set_option maxRecDepth 100000 in
/-- Witness for C5: on the conflicting cube model (driver node 100, DOF `u`
both zero-constrained and driven by `eps_11 = 1/2`) the run errors out with
no output. -/
theorem C5_conflict_fatal_before_output_witness :
    ∃ msg, main_model "rve_code_input.txt" false conflictPM = Except.error msg :=
  (C5_conflict_fatal_before_output "rve_code_input.txt" false conflictPM ⟨0, 1, 0, 1, 0, 1⟩
    [⟨1, 7, (1, 1, 1)⟩, ⟨4, 6, (1, -1, 1)⟩, ⟨2, 8, (-1, 1, 1)⟩, ⟨5, 3, (1, 1, -1)⟩]
    [((100, Dof.u), Rat.divInt 1 2)]
    (by decide) (by decide) (by decide)
    ⟨((100, Dof.u), Rat.divInt 1 2), by decide, by decide⟩).1

/-! ## C6: the driver-constraint builder -/

/-- The strain value a `DUMMY_EPS_MAP` entry contributes. -/
def entryVal (eps : Eps) (e : DMapEntry) : ℚ := epsAt eps e.1.1 e.1.2

/-- The `(driver_node, dof)` key of a `DUMMY_EPS_MAP` entry. -/
def entryKey (e : DMapEntry) : ℕ × Dof := (e.2.2.1, e.2.2.2)

/-- Whether the entry's strain component is non-negligible. -/
def entrySig (eps : Eps) (et : ℚ) (e : DMapEntry) : Bool := ! decide (|entryVal eps e| < et)

/-- All non-negligible values posted to a driver key, in entry order. -/
def sig_vals (eps : Eps) (et : ℚ) (dmap : List DMapEntry) (k : ℕ × Dof) : List ℚ :=
  (dmap.filter (fun e => decide (entryKey e = k) && entrySig eps et e)).map (entryVal eps)

theorem sig_vals_append (eps : Eps) (et : ℚ) (l₁ l₂ : List DMapEntry) (k : ℕ × Dof) :
    sig_vals eps et (l₁ ++ l₂) k = sig_vals eps et l₁ k ++ sig_vals eps et l₂ k := by
  simp [sig_vals, List.filter_append]

theorem sig_vals_single_sig (eps : Eps) (et : ℚ) (e : DMapEntry) (k : ℕ × Dof)
    (h1 : entryKey e = k) (h2 : entrySig eps et e = true) :
    sig_vals eps et [e] k = [entryVal eps e] := by
  simp [sig_vals, List.filter_cons, h1, h2]

theorem sig_vals_single_not (eps : Eps) (et : ℚ) (e : DMapEntry) (k : ℕ × Dof)
    (h : ¬(entryKey e = k ∧ entrySig eps et e = true)) :
    sig_vals eps et [e] k = [] := by
  by_cases h1 : entryKey e = k
  · have h2 : entrySig eps et e = false := by
      cases h3 : entrySig eps et e with
      | false => rfl
      | true => exact absurd ⟨h1, h3⟩ h
    simp [sig_vals, List.filter_cons, h1, h2]
  · simp [sig_vals, List.filter_cons, h1]

theorem sig_vals_cons_sig (eps : Eps) (et : ℚ) (e : DMapEntry) (rest : List DMapEntry)
    (k : ℕ × Dof) (h1 : entryKey e = k) (h2 : entrySig eps et e = true) :
    sig_vals eps et (e :: rest) k = entryVal eps e :: sig_vals eps et rest k := by
  simp [sig_vals, List.filter_cons, h1, h2]

/-- The main induction behind C6: with the invariant that `drv` holds the
first significant value of every key of `processed` and that `processed`
has no conflict, the loop errors exactly when the full map posts, to some
key, a later significant value more than `1e-12` away from the first; on
success every key maps to its first significant value. -/
theorem build_driver_loop_spec (eps : Eps) (dmap : List DMapEntry) :
    ∀ (rest processed : List DMapEntry) (drv : DriverMap),
      dmap = processed ++ rest →
      (∀ k, lookupAL drv k = (sig_vals eps eps_tol14 processed k).head?) →
      (∀ k v₀ vs, sig_vals eps eps_tol14 processed k = v₀ :: vs → ∀ v ∈ vs, |v₀ - v| ≤ tol12) →
      ((∃ msg, build_driver_loop eps eps_tol14 rest drv = Except.error msg) ↔
        ∃ k v₀ vs, sig_vals eps eps_tol14 dmap k = v₀ :: vs ∧
          ∃ v ∈ vs, ¬|v₀ - v| ≤ tol12) ∧
      (∀ out, build_driver_loop eps eps_tol14 rest drv = Except.ok out →
        ∀ k, lookupAL out k = (sig_vals eps eps_tol14 dmap k).head?) := by
  intro rest
  induction rest with
  | nil =>
    intro processed drv hsplit hinv hgood
    rw [List.append_nil] at hsplit
    subst hsplit
    constructor
    · constructor
      · intro ⟨msg, hmsg⟩
        cases hmsg
      · intro ⟨k, v₀, vs, hvals, v, hv, hfar⟩
        exact absurd (hgood k v₀ vs hvals v hv) hfar
    · intro out hout k
      cases hout
      exact hinv k
  | cons e rest ih =>
    intro processed drv hsplit hinv hgood
    by_cases hsig : |entryVal eps e| < eps_tol14
    · -- negligible entry: skipped by the loop and absent from sig_vals
      have hsigf : entrySig eps eps_tol14 e = false := by
        simp [entrySig, hsig]
      have hstep : build_driver_loop eps eps_tol14 (e :: rest) drv =
          build_driver_loop eps eps_tol14 rest drv := by
        simp only [build_driver_loop]
        rw [if_pos (by simpa [entryVal, epsAt] using hsig)]
      rw [hstep]
      refine ih (processed ++ [e]) drv (by rw [hsplit, List.append_assoc]; rfl) ?_ ?_
      · intro k
        rw [sig_vals_append, sig_vals_single_not eps eps_tol14 e k
          (fun hc => by rw [hsigf] at hc; cases hc.2), List.append_nil]
        exact hinv k
      · intro k v₀ vs hvals
        rw [sig_vals_append, sig_vals_single_not eps eps_tol14 e k
          (fun hc => by rw [hsigf] at hc; cases hc.2), List.append_nil] at hvals
        exact hgood k v₀ vs hvals
    · -- significant entry
      have hsigt : entrySig eps eps_tol14 e = true := by
        simp [entrySig, hsig]
      have hsigd : decide (|epsAt eps e.1.1 e.1.2| < eps_tol14) = false :=
        decide_eq_false hsig
      cases hlook : lookupAL drv (entryKey e) with
      | some v =>
        -- the key already has a recorded (first) value v
        have hheads := hinv (entryKey e)
        rw [hlook] at hheads
        have hcons : ∃ tl, sig_vals eps eps_tol14 processed (entryKey e) = v :: tl := by
          cases hvl : sig_vals eps eps_tol14 processed (entryKey e) with
          | nil => rw [hvl] at hheads; cases hheads
          | cons a tl =>
            rw [hvl] at hheads
            cases hheads
            exact ⟨tl, rfl⟩
        obtain ⟨tl, htl⟩ := hcons
        have hlook' : lookupAL drv (e.2.2.1, e.2.2.2) = some v := hlook
        by_cases hclose : is_close v (entryVal eps e) tol12 = true
        · -- agreeing value: not recorded, loop continues
          have hclose' : is_close v (epsAt eps e.1.1 e.1.2) tol12 = true := hclose
          have hstep : build_driver_loop eps eps_tol14 (e :: rest) drv =
              build_driver_loop eps eps_tol14 rest drv := by
            simp only [build_driver_loop, hsigd, Bool.false_eq_true, if_false, hlook',
              hclose', Bool.not_true, if_false]
          rw [hstep]
          refine ih (processed ++ [e]) drv (by rw [hsplit, List.append_assoc]; rfl) ?_ ?_
          · intro k
            rw [sig_vals_append]
            by_cases hk : entryKey e = k
            · subst hk
              rw [sig_vals_single_sig eps eps_tol14 e _ rfl hsigt, htl, hlook]
              rfl
            · rw [sig_vals_single_not eps eps_tol14 e k (fun hc => hk hc.1), List.append_nil]
              exact hinv k
          · intro k v₀ vs hvals
            by_cases hk : entryKey e = k
            · subst hk
              rw [sig_vals_append, sig_vals_single_sig eps eps_tol14 e _ rfl hsigt, htl,
                List.cons_append] at hvals
              have hv0 : v = v₀ := (List.cons.inj hvals).1
              have hvs : tl ++ [entryVal eps e] = vs := (List.cons.inj hvals).2
              subst hv0
              subst hvs
              intro w hw
              rcases List.mem_append.mp hw with h1 | h1
              · exact hgood _ v tl htl w h1
              · rw [List.mem_singleton.mp h1]
                exact (is_close_iff _ _ _).mp hclose
            · rw [sig_vals_append, sig_vals_single_not eps eps_tol14 e k (fun hc => hk hc.1),
                List.append_nil] at hvals
              exact hgood k v₀ vs hvals
        · -- conflicting value: fatal error
          have hclosef : is_close v (epsAt eps e.1.1 e.1.2) tol12 = false := by
            cases h3 : is_close v (entryVal eps e) tol12 with
            | false => exact h3
            | true => exact absurd h3 hclose
          have hmsg : build_driver_loop eps eps_tol14 (e :: rest) drv =
              Except.error
                (driver_conflict_msg e.2.2.1 e.2.2.2 v (epsAt eps e.1.1 e.1.2) e.1.1 e.1.2) := by
            simp only [build_driver_loop, hsigd, Bool.false_eq_true, if_false, hlook',
              hclosef, Bool.not_false, if_true]
          constructor
          · constructor
            · intro _
              refine ⟨entryKey e, v, tl ++ sig_vals eps eps_tol14 (e :: rest) (entryKey e),
                ?_, entryVal eps e, ?_, ?_⟩
              · rw [hsplit, sig_vals_append, htl]
                rfl
              · refine List.mem_append.mpr (Or.inr ?_)
                rw [sig_vals_cons_sig eps eps_tol14 e rest (entryKey e) rfl hsigt]
                exact List.mem_cons_self _ _
              · intro hle
                exact hclose ((is_close_iff _ _ _).mpr hle)
            · intro _
              exact ⟨_, hmsg⟩
          · intro out hout
            rw [hmsg] at hout
            cases hout
      | none =>
        -- first significant value for this key: recorded
        have hheads := hinv (entryKey e)
        rw [hlook] at hheads
        have hnil : sig_vals eps eps_tol14 processed (entryKey e) = [] := by
          cases hvl : sig_vals eps eps_tol14 processed (entryKey e) with
          | nil => rfl
          | cons a tl => rw [hvl] at hheads; cases hheads
        have hlook' : lookupAL drv (e.2.2.1, e.2.2.2) = none := hlook
        have hstep : build_driver_loop eps eps_tol14 (e :: rest) drv =
            build_driver_loop eps eps_tol14 rest (drv ++ [(entryKey e, entryVal eps e)]) := by
          simp only [build_driver_loop, hsigd, Bool.false_eq_true, if_false, hlook']
          rfl
        rw [hstep]
        refine ih (processed ++ [e]) (drv ++ [(entryKey e, entryVal eps e)])
          (by rw [hsplit, List.append_assoc]; rfl) ?_ ?_
        · intro k
          rw [lookupAL_append, sig_vals_append]
          by_cases hk : entryKey e = k
          · rw [hinv k, ← hk, hnil, sig_vals_single_sig eps eps_tol14 e (entryKey e) rfl hsigt]
            simp [lookupAL, hk]
          · rw [sig_vals_single_not eps eps_tol14 e k (fun hc => hk hc.1), List.append_nil]
            have h2 : lookupAL [(entryKey e, entryVal eps e)] k = none := by
              simp [lookupAL, hk]
            rw [h2, hinv k]
            cases (sig_vals eps eps_tol14 processed k).head? <;> rfl
        · intro k v₀ vs hvals
          by_cases hk : entryKey e = k
          · rw [sig_vals_append, ← hk, hnil,
              sig_vals_single_sig eps eps_tol14 e (entryKey e) rfl hsigt] at hvals
            have : vs = [] := by
              have := congrArg List.tail hvals
              simpa using this.symm
            subst this
            intro w hw
            cases hw
          · rw [sig_vals_append, sig_vals_single_not eps eps_tol14 e k (fun hc => hk hc.1),
              List.append_nil] at hvals
            exact hgood k v₀ vs hvals

/-- **C6 (amended).**  `build_driver_constraints` records, for each
`(driver_node, dof)` key, the **first** non-negligible (`|eps| ≥ 1e-14`)
strain value posted to it, and raises a fatal error **iff** some later
non-negligible value for that key differs from that first recorded value by
more than `1e-12`.  (The original claim — error iff *some two* entries of
the key differ by more than `1e-12` — is refuted by `C6_counterexample`.) -/
theorem C6_amended (eps : Eps) (dmap : List DMapEntry) :
    ((∃ msg, build_driver_constraints eps dmap eps_tol14 = Except.error msg) ↔
      ∃ k v₀ vs, sig_vals eps eps_tol14 dmap k = v₀ :: vs ∧
        ∃ v ∈ vs, ¬|v₀ - v| ≤ tol12) ∧
    (∀ out, build_driver_constraints eps dmap eps_tol14 = Except.ok out →
      ∀ k, lookupAL out k = (sig_vals eps eps_tol14 dmap k).head?) := by
  have h := build_driver_loop_spec eps dmap dmap [] []
    (by rfl) (fun k => rfl) (fun k v₀ vs h => by cases h)
  exact ⟨h.1, h.2⟩

/-- A strain tensor with `eps_11 = 1/2`, `eps_12 = 1/2 + 0.9e-12` and
`eps_21 = 1/2 - 0.9e-12`. -/
def c6eps : Eps :=
  [[Rat.divInt 1 2, qadd (Rat.divInt 1 2) (Rat.divInt 9 (10 ^ 13)), 0],
   [qsub (Rat.divInt 1 2) (Rat.divInt 9 (10 ^ 13)), 0, 0],
   [0, 0, 0]]

/-- Three dummy-map entries all posting to driver key `(100, u)`. -/
def c6dmap : List DMapEntry :=
  [((1, 1), (10, 100, Dof.u)), ((1, 2), (11, 100, Dof.u)), ((2, 1), (12, 100, Dof.u))]

/-- **Counterexample to C6.**  The entries `(1,2)` and `(2,1)` both map to
driver key `(100, u)` with non-negligible values that differ by
`1.8e-12 > 1e-12`, yet `build_driver_constraints` succeeds: the code only
compares each new value against the **first recorded** value (`eps_11 =
1/2`, within `0.9e-12` of both), so the claimed "error iff two entries
differ by more than 1e-12" fails in the only-if direction. -/
theorem C6_counterexample :
    build_driver_constraints c6eps c6dmap eps_tol14 =
      Except.ok [((100, Dof.u), Rat.divInt 1 2)] ∧
    ((1, 2), (11, 100, Dof.u)) ∈ c6dmap ∧ ((2, 1), (12, 100, Dof.u)) ∈ c6dmap ∧
    ¬(|epsAt c6eps 1 2| < eps_tol14) ∧ ¬(|epsAt c6eps 2 1| < eps_tol14) ∧
    ¬(|epsAt c6eps 1 2 - epsAt c6eps 2 1| ≤ tol12) := by
  refine ⟨by decide, by decide, by decide, by decide, by decide, ?_⟩
  rw [← qsub_eq]
  decide

/-- Witness for C6 (amended): on the counterexample input the recorded
value for `(100, u)` is exactly the first significant value posted. -/
theorem C6_amended_witness :
    lookupAL [((100, Dof.u), Rat.divInt 1 2)] (100, Dof.u) =
      (sig_vals c6eps eps_tol14 c6dmap (100, Dof.u)).head? :=
  (C6_amended c6eps c6dmap).2 [((100, Dof.u), Rat.divInt 1 2)] (by decide) (100, Dof.u)

/-! ## C7: node-block id sequencing -/

/-- A node line that is well formed apart from its id value: four tokens,
an integer first token and three float coordinates. -/
def node_line_ok (line : String) : Prop :=
  (data_tokens line).length = 4 ∧
  (pyInt? ((data_tokens line).getD 0 "")).isSome = true ∧
  (pyFloat? ((data_tokens line).getD 1 "")).isSome = true ∧
  (pyFloat? ((data_tokens line).getD 2 "")).isSome = true ∧
  (pyFloat? ((data_tokens line).getD 3 "")).isSome = true

instance (line : String) : Decidable (node_line_ok line) := by
  unfold node_line_ok
  infer_instance

/-- The node id a line carries (its first token, as Python `int`). -/
def line_id (line : String) : Option ℤ := pyInt? ((data_tokens line).getD 0 "")

/-- A string without backslash or single-quote characters, for which
`pyRepr` is plain quoting. -/
def noQuoteEscape (s : String) : Prop := ∀ c ∈ s.data, ¬(c = bslash ∨ c = Char.ofNat 39)

instance (s : String) : Decidable (noQuoteEscape s) := by
  unfold noQuoteEscape
  infer_instance

theorem flatMap_pyReprChar_id {l : List Char}
    (h : ∀ c ∈ l, ¬(c = bslash ∨ c = Char.ofNat 39)) :
    l.flatMap pyReprChar = l := by
  induction l with
  | nil => rfl
  | cons c cs ih =>
    have hc := h c (List.mem_cons_self _ _)
    have h1 : (c == bslash) = false :=
      beq_eq_false_iff_ne.mpr (fun e => hc (Or.inl e))
    have h2 : (c == Char.ofNat 39) = false :=
      beq_eq_false_iff_ne.mpr (fun e => hc (Or.inr e))
    rw [List.flatMap_cons]
    simp only [pyReprChar, h1, h2, Bool.false_eq_true, if_false]
    rw [ih (fun d hd => h d (List.mem_cons_of_mem _ hd))]
    rfl

theorem pyRepr_noQuoteEscape {s : String} (h : noQuoteEscape s) :
    (pyRepr s).data = sq.data ++ s.data ++ sq.data := by
  rw [pyRepr, String.data_append, String.data_append]
  have hmap : (String.mk (s.data.flatMap pyReprChar)).data = s.data := by
    show s.data.flatMap pyReprChar = s.data
    exact flatMap_pyReprChar_id h
  rw [hmap]

/-- The node-numbering error message of `parse_node_loop`. -/
def seq_error_msg (expected : ℕ) (nid : ℤ) (line : String) : String :=
  "Node numbering not sequential. Expected node " ++ Nat.repr expected ++
    " on this line, got " ++ Int.repr nid ++ ". Line: " ++ pyRepr line

/-- The behaviour of the node-line loop on well-formed lines, generalised
over the running expected id: it succeeds — returning nodes whose ids are
exactly `expected, expected+1, …` — iff every line's id equals its
position, and on the first mismatching line it fails with a message that
embeds that line's `repr`. -/
theorem parse_node_loop_spec (lines : List String) :
    ∀ (c idx e : ℕ),
      (∀ k, k < c → node_line_ok (lines.getD (idx + k) "")) →
      ((∃ ns, parse_node_loop lines idx e c = Except.ok ns ∧
          ns.map Node.nid = List.range' e c) ↔
        (∀ k, k < c → line_id (lines.getD (idx + k) "") = some ((e : ℤ) + (k : ℤ)))) ∧
      (∀ k, k < c →
        (∀ j, j < k → line_id (lines.getD (idx + j) "") = some ((e : ℤ) + (j : ℤ))) →
        line_id (lines.getD (idx + k) "") ≠ some ((e : ℤ) + (k : ℤ)) →
        ∃ msg, parse_node_loop lines idx e c = Except.error msg ∧
          (pyRepr (lines.getD (idx + k) "")).data <:+ msg.data) := by
  intro c
  induction c with
  | zero =>
    intro idx e hwf
    constructor
    · constructor
      · intro _ k hk
        exact absurd hk (Nat.not_lt_zero k)
      · intro _
        exact ⟨[], rfl, rfl⟩
    · intro k hk
      exact absurd hk (Nat.not_lt_zero k)
  | succ c ih =>
    intro idx e hwf
    have h0 := hwf 0 (Nat.succ_pos c)
    rw [Nat.add_zero] at h0
    obtain ⟨hlen4, hint, hflt1, hflt2, hflt3⟩ := h0
    obtain ⟨nid, hnid⟩ := Option.isSome_iff_exists.mp hint
    obtain ⟨x, hx⟩ := Option.isSome_iff_exists.mp hflt1
    obtain ⟨y, hy⟩ := Option.isSome_iff_exists.mp hflt2
    obtain ⟨z, hz⟩ := Option.isSome_iff_exists.mp hflt3
    have hwf' : ∀ k, k < c → node_line_ok (lines.getD (idx + 1 + k) "") := by
      intro k hk
      have h := hwf (k + 1) (Nat.succ_lt_succ hk)
      rwa [show idx + (k + 1) = idx + 1 + k by omega] at h
    have hline0 : line_id (lines.getD idx "") = some nid := hnid
    have ⟨IH1, IH2⟩ := ih (idx + 1) (e + 1) hwf'
    have harith : ∀ j : ℕ, ((e : ℤ) + ((j + 1 : ℕ) : ℤ)) = (((e + 1 : ℕ) : ℤ) + (j : ℤ)) := by
      intro j
      push_cast
      ring
    by_cases hid : nid = (e : ℤ)
    · -- matching id: the loop parses this line and recurses
      have hstep : parse_node_loop lines idx e (c + 1) =
          (parse_node_loop lines (idx + 1) (e + 1) c).map
            (fun rest => { nid := e, x := x, y := y, z := z } :: rest) := by
        simp only [parse_node_loop, hlen4, ne_eq, not_true_eq_false, if_false, hnid, hx, hy,
          hz, hid]
      constructor
      · rw [hstep]
        constructor
        · rintro ⟨ns, hok, hmap⟩ k hk
          cases hrec : parse_node_loop lines (idx + 1) (e + 1) c with
          | error msg =>
            rw [hrec] at hok
            cases hok
          | ok rest =>
            rw [hrec] at hok
            cases hok
            rw [List.map_cons, List.range'_succ] at hmap
            have hmap' : rest.map Node.nid = List.range' (e + 1) c :=
              (List.cons.inj hmap).2
            cases k with
            | zero =>
              rw [Nat.add_zero, hline0, hid]
              norm_num
            | succ j =>
              have hj := IH1.mp ⟨rest, hrec, hmap'⟩ j (Nat.lt_of_succ_lt_succ hk)
              rw [show idx + (j + 1) = idx + 1 + j by omega, hj, harith j]
        · intro hall
          have hrest : ∃ rest, parse_node_loop lines (idx + 1) (e + 1) c = Except.ok rest ∧
              rest.map Node.nid = List.range' (e + 1) c := by
            refine IH1.mpr ?_
            intro j hj
            have h := hall (j + 1) (Nat.succ_lt_succ hj)
            rwa [show idx + (j + 1) = idx + 1 + j by omega, harith j] at h
          obtain ⟨rest, hrec, hmap⟩ := hrest
          refine ⟨{ nid := e, x := x, y := y, z := z } :: rest, ?_, ?_⟩
          · rw [hrec]
            rfl
          · rw [List.map_cons, hmap, List.range'_succ]
      · intro k hk hprev hbad
        cases k with
        | zero =>
          exfalso
          apply hbad
          rw [Nat.add_zero, hline0, hid]
          norm_num
        | succ j =>
          have hprev' : ∀ j', j' < j →
              line_id (lines.getD (idx + 1 + j') "") = some (((e + 1 : ℕ) : ℤ) + (j' : ℤ)) := by
            intro j' hj'
            have h := hprev (j' + 1) (Nat.succ_lt_succ hj')
            rwa [show idx + (j' + 1) = idx + 1 + j' by omega, harith j'] at h
          have hbad' : line_id (lines.getD (idx + 1 + j) "") ≠
              some (((e + 1 : ℕ) : ℤ) + (j : ℤ)) := by
            intro h
            apply hbad
            rwa [show idx + (j + 1) = idx + 1 + j by omega, harith j]
          obtain ⟨msg, hmsg, hsuf⟩ := IH2 j (Nat.lt_of_succ_lt_succ hk) hprev' hbad'
          refine ⟨msg, ?_, ?_⟩
          · rw [hstep, hmsg]
            rfl
          · rwa [show idx + (j + 1) = idx + 1 + j by omega]
    · -- mismatching id: fatal error mentioning this very line
      have hmsgdef : parse_node_loop lines idx e (c + 1) =
          Except.error (seq_error_msg e nid (lines.getD idx "")) := by
        simp only [parse_node_loop, hlen4, ne_eq, not_true_eq_false, if_false, hnid]
        rw [if_pos hid]
        rfl
      have hfirstbad : ∀ P : Prop,
          line_id (lines.getD (idx + 0) "") = some ((e : ℤ) + ((0 : ℕ) : ℤ)) → P := by
        intro P h
        rw [Nat.add_zero, hline0] at h
        exfalso
        apply hid
        have h2 : nid = (e : ℤ) + ((0 : ℕ) : ℤ) := Option.some.inj h
        simpa using h2
      constructor
      · constructor
        · rintro ⟨ns, hok, _⟩
          rw [hmsgdef] at hok
          cases hok
        · intro hall
          exact hfirstbad _ (hall 0 (Nat.succ_pos c))
      · intro k hk hprev hbad
        cases k with
        | zero =>
          refine ⟨seq_error_msg e nid (lines.getD idx ""), ?_, ?_⟩
          · rwa [Nat.add_zero]
          · rw [Nat.add_zero, seq_error_msg, String.data_append]
            exact List.suffix_append _ _
        | succ j =>
          exact hfirstbad _ (hprev 0 (Nat.succ_pos j))

/-- **C7.**  For well-formed node lines, the node block is accepted iff the
`k`-th line carries id `k+1` — so the parsed node ids are exactly the
contiguous range `1..n` in file order — and on the first line whose id
differs from its 1-based position the parser fails with a message embedding
that line (its Python `repr`; for lines without backslash/quote characters
the raw line itself is a substring of the message). -/
theorem C7_node_id_sequencing (lines : List String) (idx n : ℕ)
    (hlen : idx + n ≤ lines.length)
    (hwf : ∀ k, k < n → node_line_ok (lines.getD (idx + k) "")) :
    ((∃ ns, parse_node_block lines idx n = Except.ok ns ∧
        ns.map Node.nid = List.range' 1 n) ↔
      (∀ k, k < n → line_id (lines.getD (idx + k) "") = some ((k : ℤ) + 1))) ∧
    (∀ k, k < n →
      (∀ j, j < k → line_id (lines.getD (idx + j) "") = some ((j : ℤ) + 1)) →
      line_id (lines.getD (idx + k) "") ≠ some ((k : ℤ) + 1) →
      ∃ msg, parse_node_block lines idx n = Except.error msg ∧
        (pyRepr (lines.getD (idx + k) "")).data <:+ msg.data ∧
        (noQuoteEscape (lines.getD (idx + k) "") →
          (lines.getD (idx + k) "").data <:+: msg.data)) := by
  have hnb : parse_node_block lines idx n = parse_node_loop lines idx 1 n := by
    rw [parse_node_block, if_neg (by omega)]
  have hspec := parse_node_loop_spec lines n idx 1 hwf
  have H1 := hspec.1
  have H2 := hspec.2
  have harith : ∀ k : ℕ, ((1 : ℕ) : ℤ) + (k : ℤ) = (k : ℤ) + 1 := by
    intro k
    push_cast
    ring
  constructor
  · rw [hnb]
    constructor
    · intro h k hk
      rw [← harith k]
      exact H1.mp h k hk
    · intro h
      exact H1.mpr (fun k hk => by rw [harith k]; exact h k hk)
  · intro k hk hprev hbad
    obtain ⟨msg, hmsg, hsuf⟩ := H2 k hk (fun j hj => by rw [harith j]; exact hprev j hj)
      (fun h => hbad (by rw [← harith k]; exact h))
    refine ⟨msg, by rw [hnb]; exact hmsg, hsuf, ?_⟩
    intro hnq
    have h1 : (lines.getD (idx + k) "").data <:+: (pyRepr (lines.getD (idx + k) "")).data := by
      rw [pyRepr_noQuoteEscape hnq]
      exact ⟨sq.data, sq.data, rfl⟩
    exact h1.trans hsuf.isInfix

/-- Witness for C7: a two-line block with ids 1, 2 parses, and the node ids
are exactly `1..2`. -/
theorem C7_node_id_sequencing_witness :
    ∃ ns, parse_node_block ["1 0.0 0.0 0.0", "2 1.0 0.5 0.25"] 0 2 = Except.ok ns ∧
      ns.map Node.nid = List.range' 1 2 :=
  (C7_node_id_sequencing ["1 0.0 0.0 0.0", "2 1.0 0.5 0.25"] 0 2 (by decide)
    (by decide)).1.mpr (by decide)

/-! ## C8: classification tolerance, kinds and degenerate nodes -/

theorem mem_ite_singleton (c : Prop) [Decidable c] (f g : Face) :
    (f ∈ if c then ({g} : Finset Face) else ∅) ↔ (c ∧ f = g) := by
  by_cases h : c <;> simp [h]

/-- `1e-9`, the x-extent of the flat-box counterexample. -/
def qa9 : ℚ := Rat.divInt 1 (10 ^ 9)

/-- A box that is `1e-9` thin in x and unit sized in y, z: every node is
within the relative tolerance of **both** X planes, so all eight corners
carry 4 face tags and are classified `degenerate`. -/
def flatNodes : List Node :=
  [⟨1, 0, 0, 0, ∅, Kind.unset⟩, ⟨2, qa9, 0, 0, ∅, Kind.unset⟩,
   ⟨3, qa9, 1, 0, ∅, Kind.unset⟩, ⟨4, 0, 1, 0, ∅, Kind.unset⟩,
   ⟨5, 0, 0, 1, ∅, Kind.unset⟩, ⟨6, qa9, 0, 1, ∅, Kind.unset⟩,
   ⟨7, qa9, 1, 1, ∅, Kind.unset⟩, ⟨8, 0, 1, 1, ∅, Kind.unset⟩]

/-- The flat-box model (zero strain, empty dummy map, no constraints). -/
def flatPM : ParsedModel := ⟨1, 1, 1, cubeVIds, epsZero, flatNodes, ∅, []⟩

set_option maxRecDepth 100000 in
/-- **Counterexample to C8.**  On the flat box every node — including the
named vertices — is classified `degenerate`, yet the run emits 12 MPC
equations through the vertex group (which has no kind guard): the very
first emitted equation contains the degenerate nodes 7 and 1.  So
"degenerate nodes appear in no emitted MPC equation" is false. -/
theorem C8_counterexample :
    (run_pipeline flatPM).map (fun d => (findNode d.cnodes 7).map Node.kind) =
      Except.ok (some Kind.degenerate) ∧
    (run_pipeline flatPM).map (fun d => (findNode d.cnodes 1).map Node.kind) =
      Except.ok (some Kind.degenerate) ∧
    (run_pipeline flatPM).map (fun d => d.mpc_eqs.head?) =
      Except.ok (some [((1 : ℚ), 7, Dof.u), ((-1 : ℚ), 1, Dof.u)]) ∧
    (run_pipeline flatPM).map (fun d => d.mpc_eqs.length) = Except.ok 12 := by
  refine ⟨by decide, by decide, by decide, by decide⟩

/-- **C8 (amended).**  The classifier uses the relative tolerance
`tol = 1e-6 · max(|Lx|,|Ly|,|Lz|)` (falling back to the raw `1e-6` for a
zero-sized box), tags a node with a face exactly when the coordinate is
within `tol` of that bounding plane, derives the kind deterministically
from the tag count (0 interior, 1 face, 2 edge, 3 vertex, more degenerate)
without any error path, and degenerate nodes are excluded from the
**face- and edge-group** MPC generation by the required-kind guard — but
not from the vertex group, which has no kind guard (see
`C8_counterexample`). -/
theorem C8_amended (b : Bounds) (r tol : ℚ) (nd : Node) :
    (classify_tol b r =
      if 0 < max |b.xmax - b.xmin| (max |b.ymax - b.ymin| |b.zmax - b.zmin|) then
        r * max |b.xmax - b.xmin| (max |b.ymax - b.ymin| |b.zmax - b.zmin|)
      else r) ∧
    ((Face.Xm ∈ (classify_one b tol nd).faces ↔ |nd.x - b.xmin| ≤ tol) ∧
     (Face.Xp ∈ (classify_one b tol nd).faces ↔ |nd.x - b.xmax| ≤ tol) ∧
     (Face.Ym ∈ (classify_one b tol nd).faces ↔ |nd.y - b.ymin| ≤ tol) ∧
     (Face.Yp ∈ (classify_one b tol nd).faces ↔ |nd.y - b.ymax| ≤ tol) ∧
     (Face.Zm ∈ (classify_one b tol nd).faces ↔ |nd.z - b.zmin| ≤ tol) ∧
     (Face.Zp ∈ (classify_one b tol nd).faces ↔ |nd.z - b.zmax| ≤ tol)) ∧
    ((classify_one b tol nd).kind =
      if (classify_one b tol nd).faces.card = 0 then Kind.interior
      else if (classify_one b tol nd).faces.card = 1 then Kind.face
      else if (classify_one b tol nd).faces.card = 2 then Kind.edge
      else if (classify_one b tol nd).faces.card = 3 then Kind.vertex
      else Kind.degenerate) ∧
    ((classify_one b tol nd).nid = nd.nid ∧ (classify_one b tol nd).x = nd.x ∧
      (classify_one b tol nd).y = nd.y ∧ (classify_one b tol nd).z = nd.z) ∧
    (∀ (k : Kind) (a c : Node), k = Kind.face ∨ k = Kind.edge →
      a.kind = Kind.degenerate ∨ c.kind = Kind.degenerate →
      requiredKindOk (some k) a c = false) ∧
    (∀ (pl : List Pairing) (nodes : List Node) (eps : Eps) (dmap : List DMapEntry)
      (fixed : Finset (ℕ × Dof)) (k : Kind) (et ot : ℚ),
      (∀ p ∈ pl, pairKindOk nodes k p = false) →
      generate_dummy_mpcs_for_pairs pl nodes eps dmap fixed (some k) et ot = ⟨[], ∅, []⟩) := by
  refine ⟨?_, ⟨?_, ?_, ?_, ?_, ?_, ?_⟩, ?_, ⟨rfl, rfl, rfl, rfl⟩, ?_, ?_⟩
  · rw [classify_tol, qmul_eq, qsub_eq, qsub_eq, qsub_eq]
    simp only [decide_eq_true_eq]
  · rw [show (|nd.x - b.xmin| ≤ tol) = (|qsub nd.x b.xmin| ≤ tol) from by rw [qsub_eq]]
    simp only [classify_one, Finset.mem_union, mem_ite_singleton]
    simp
  · rw [show (|nd.x - b.xmax| ≤ tol) = (|qsub nd.x b.xmax| ≤ tol) from by rw [qsub_eq]]
    simp only [classify_one, Finset.mem_union, mem_ite_singleton]
    simp
  · rw [show (|nd.y - b.ymin| ≤ tol) = (|qsub nd.y b.ymin| ≤ tol) from by rw [qsub_eq]]
    simp only [classify_one, Finset.mem_union, mem_ite_singleton]
    simp
  · rw [show (|nd.y - b.ymax| ≤ tol) = (|qsub nd.y b.ymax| ≤ tol) from by rw [qsub_eq]]
    simp only [classify_one, Finset.mem_union, mem_ite_singleton]
    simp
  · rw [show (|nd.z - b.zmin| ≤ tol) = (|qsub nd.z b.zmin| ≤ tol) from by rw [qsub_eq]]
    simp only [classify_one, Finset.mem_union, mem_ite_singleton]
    simp
  · rw [show (|nd.z - b.zmax| ≤ tol) = (|qsub nd.z b.zmax| ≤ tol) from by rw [qsub_eq]]
    simp only [classify_one, Finset.mem_union, mem_ite_singleton]
    simp
  · rfl
  · intro k a c hk hdeg
    rcases hk with hk | hk <;> subst hk <;> rcases hdeg with h | h <;>
      simp [requiredKindOk, h]
  · intro pl nodes eps dmap fixed k et ot hall
    rw [generate_filter_kind, List.filter_eq_nil_iff.mpr (fun p hp => by simp [hall p hp])]
    rfl

/-! ## C10 support: unique keys of built dicts, last-wins lookup -/

theorem keys_insertAL [DecidableEq α] (al : List (α × β)) (k : α) (v : β)
    (h : (al.map Prod.fst).Nodup) : ((insertAL al k v).map Prod.fst).Nodup := by
  rw [insertAL]
  by_cases hany : al.any (fun p => decide (p.1 = k)) = true
  · rw [if_pos hany]
    have heq : (al.map (fun p => if p.1 = k then (k, v) else p)).map Prod.fst =
        al.map Prod.fst := by
      rw [List.map_map]
      apply List.map_congr_left
      intro p _
      by_cases hp : p.1 = k
      · simp [hp]
      · simp [hp]
    rw [heq]
    exact h
  · rw [if_neg hany, List.map_append]
    have hk : k ∉ al.map Prod.fst := by
      intro hm
      obtain ⟨p, hp, hpk⟩ := List.mem_map.mp hm
      exact hany (List.any_eq_true.mpr ⟨p, hp, by simp [hpk]⟩)
    simp [List.nodup_append, h, hk]

theorem keys_buildAL_nodup [DecidableEq α] (l : List (α × β)) :
    ((buildAL l).map Prod.fst).Nodup := by
  have aux : ∀ (ll acc : List (α × β)), (acc.map Prod.fst).Nodup →
      (((ll.foldl (fun al q => insertAL al q.1 q.2) acc).map Prod.fst).Nodup) := by
    intro ll
    induction ll with
    | nil => intro acc h; exact h
    | cons q rest ih =>
      intro acc h
      rw [List.foldl_cons]
      exact ih _ (keys_insertAL acc q.1 q.2 h)
  exact aux l [] (by simp)

theorem lookupAL_of_keys_nodup [DecidableEq α] {al : List (α × β)}
    (h : (al.map Prod.fst).Nodup) {p : α × β} (hp : p ∈ al) :
    lookupAL al p.1 = some p.2 := by
  induction al with
  | nil => cases hp
  | cons q rest ih =>
    rw [List.map_cons, List.nodup_cons] at h
    rcases List.mem_cons.mp hp with h1 | h1
    · subst h1
      rw [lookupAL, if_pos rfl]
    · have hne : ¬(q.1 = p.1) := by
        intro he
        exact h.1 (he ▸ List.mem_map.mpr ⟨p, h1, rfl⟩)
      rw [lookupAL, if_neg hne]
      exact ih h.2 h1

/-- The id-keyed map built from a keyed node list resolves each key to the
**last** node (in list order) carrying that key. -/
theorem keymap_last {γ : Type} [DecidableEq γ] (l : List Node) (key : Node → γ) (k : γ) :
    lookupAL (buildAL (l.map (fun nd => (key nd, nd.nid)))) k =
      ((l.filter (fun nd => decide (key nd = k))).map Node.nid).getLast? := by
  rw [lookupAL_buildAL]
  congr 1
  induction l with
  | nil => rfl
  | cons nd rest ih =>
    rw [List.map_cons, List.filter_cons, List.filter_cons]
    by_cases h : key nd = k
    · rw [if_pos (by simp [h]), if_pos (by simp [h]), List.map_cons, List.map_cons, ih]
    · rw [if_neg (by simp [h]), if_neg (by simp [h])]
      exact ih

theorem getLast?_max_nid : ∀ {l : List Node},
    List.Pairwise (fun a b : Node => a.nid < b.nid) l →
    ∀ {m : ℕ}, (l.map Node.nid).getLast? = some m → ∀ nd ∈ l, nd.nid ≤ m := by
  intro l
  induction l with
  | nil =>
    intro _ m hl
    cases hl
  | cons a rest ih =>
    intro hp m hl
    rw [List.map_cons, getLast?_cons] at hl
    cases hrest : (rest.map Node.nid).getLast? with
    | none =>
      rw [hrest] at hl
      have hm : a.nid = m := by
        simpa [Option.or] using hl
      have hrnil : rest = [] := by
        by_cases hr : rest = []
        · exact hr
        · exfalso
          have h1 : (rest.map Node.nid) ≠ [] := by
            simpa using hr
          have h2 := List.getLast?_isSome.mpr h1
          rw [hrest] at h2
          cases h2
      intro nd hnd
      rcases List.mem_cons.mp hnd with h1 | h1
      · rw [h1, hm]
      · rw [hrnil] at h1
        cases h1
    | some m' =>
      rw [hrest] at hl
      have hm : m' = m := by
        simpa [Option.or] using hl
      subst hm
      have hptail := (List.pairwise_cons.mp hp).2
      have hphead := (List.pairwise_cons.mp hp).1
      intro nd hnd
      rcases List.mem_cons.mp hnd with h1 | h1
      · subst h1
        have hrne : rest ≠ [] := by
          intro hr
          rw [hr] at hrest
          cases hrest
        obtain ⟨b, rest', hb⟩ := List.exists_cons_of_ne_nil hrne
        have hab : nd.nid < b.nid := hphead b (by rw [hb]; exact List.mem_cons_self _ _)
        have hbm : b.nid ≤ m' := ih hptail hrest b (by rw [hb]; exact List.mem_cons_self _ _)
        exact le_of_lt (lt_of_lt_of_le hab hbm)
      · exact ih hptail hrest nd h1

theorem nid_inj {nodes : List Node}
    (hp : List.Pairwise (fun a b : Node => a.nid < b.nid) nodes) :
    ∀ {a b : Node}, a ∈ nodes → b ∈ nodes → a.nid = b.nid → a = b := by
  have hnd : (nodes.map Node.nid).Nodup :=
    (hp.map Node.nid (fun a b h => h)).imp (fun h => ne_of_lt h)
  intro a b ha hb he
  exact List.inj_on_of_nodup_map hnd ha hb he

/-- Destructure membership in `pair_face_nodes`: the pairing's minus node
is the value the minus-side key map holds for some key, contributed by an
actual minus-side node carrying that key. -/
theorem pair_face_nodes_minus_src {nodes : List Node} {mf pf : Face} {pr : Pairing}
    (hpr : pr ∈ pair_face_nodes nodes mf pf) :
    ∃ nd', nd' ∈ nodes.filter (fun n => decide (mf ∈ n.faces)) ∧ nd'.nid = pr.minus_node ∧
      (((nodes.filter (fun n => decide (mf ∈ n.faces))).filter
          (fun n => decide (faceKey mf n = faceKey mf nd'))).map Node.nid).getLast? =
        some pr.minus_node := by
  simp only [pair_face_nodes] at hpr
  obtain ⟨kv, hkv, hf⟩ := List.mem_filterMap.mp hpr
  cases hlook : lookupAL (buildAL ((nodes.filter (fun n => decide (pf ∈ n.faces))).map
      (fun n => (faceKey mf n, n.nid)))) kv.1 with
  | none =>
    rw [hlook] at hf
    cases hf
  | some pid =>
    rw [hlook] at hf
    have hmn := (mkPairing_some hf).1
    obtain ⟨nd', hnd', hkey⟩ := List.mem_map.mp (mem_buildAL hkv)
    have hk1 : faceKey mf nd' = kv.1 := congrArg Prod.fst hkey
    have hk2 : nd'.nid = kv.2 := congrArg Prod.snd hkey
    have hlku : lookupAL (buildAL ((nodes.filter (fun n => decide (mf ∈ n.faces))).map
        (fun n => (faceKey mf n, n.nid)))) kv.1 = some kv.2 :=
      lookupAL_of_keys_nodup (keys_buildAL_nodup _) hkv
    have hlast := keymap_last (nodes.filter (fun n => decide (mf ∈ n.faces))) (faceKey mf) kv.1
    rw [hlku] at hlast
    refine ⟨nd', hnd', by rw [hk2, hmn], ?_⟩
    rw [hk1, hmn]
    exact hlast.symm

/-! ## C10: rounded-key collisions keep only the last node -/

/-- **C10.**  In face and edge pairing each rounded matching key yields at
most one usable node per side: the comprehension-built key map resolves a
key to the **last** node (in node-map order) carrying it; consequently a
pairing's minus node is always the last — and, when the node list is in
ascending id order, the highest-id — node of its key class, and a shadowed
node (one that is not the last of its class) appears in no pairing.  The
pairing builders have no warning or error channel, so the shadowed nodes
are dropped silently. -/
theorem C10_key_collision_shadowing :
    (∀ (l : List Node) (mf : Face) (k : ℚ × ℚ),
      lookupAL (buildAL (l.map (fun nd => (faceKey mf nd, nd.nid)))) k =
        ((l.filter (fun nd => decide (faceKey mf nd = k))).map Node.nid).getLast?) ∧
    (∀ (l : List Node) (ax : Axis) (k : ℚ),
      lookupAL (buildAL (l.map (fun nd => (round_coord (axis_coord nd ax), nd.nid)))) k =
        ((l.filter (fun nd => decide (round_coord (axis_coord nd ax) = k))).map
          Node.nid).getLast?) ∧
    (∀ (nodes : List Node) (mf pf : Face) (pr : Pairing),
      List.Pairwise (fun a b : Node => a.nid < b.nid) nodes →
      pr ∈ pair_face_nodes nodes mf pf →
      ∃ nd', nd' ∈ nodes.filter (fun n => decide (mf ∈ n.faces)) ∧
        nd'.nid = pr.minus_node ∧
        ∀ nd ∈ nodes.filter (fun n => decide (mf ∈ n.faces)),
          faceKey mf nd = faceKey mf nd' → nd.nid ≤ pr.minus_node) ∧
    (∀ (nodes : List Node) (mf pf : Face) (nd : Node),
      List.Pairwise (fun a b : Node => a.nid < b.nid) nodes →
      nd ∈ nodes.filter (fun n => decide (mf ∈ n.faces)) →
      (((nodes.filter (fun n => decide (mf ∈ n.faces))).filter
          (fun n => decide (faceKey mf n = faceKey mf nd))).map Node.nid).getLast? ≠
        some nd.nid →
      ∀ pr ∈ pair_face_nodes nodes mf pf, pr.minus_node ≠ nd.nid) := by
  refine ⟨fun l mf k => keymap_last l (faceKey mf) k,
    fun l ax k => keymap_last l (fun nd => round_coord (axis_coord nd ax)) k, ?_, ?_⟩
  · intro nodes mf pf pr hp hpr
    obtain ⟨nd', hnd', hid, hlast⟩ := pair_face_nodes_minus_src hpr
    refine ⟨nd', hnd', hid, ?_⟩
    intro nd hnd hkey
    have hpfilter : List.Pairwise (fun a b : Node => a.nid < b.nid)
        ((nodes.filter (fun n => decide (mf ∈ n.faces))).filter
          (fun n => decide (faceKey mf n = faceKey mf nd'))) :=
      (hp.filter _).filter _
    refine getLast?_max_nid hpfilter hlast nd ?_
    exact List.mem_filter.mpr ⟨hnd, by simp [hkey]⟩
  · intro nodes mf pf nd hp hnd hnotlast pr hpr heq
    obtain ⟨nd', hnd', hid, hlast⟩ := pair_face_nodes_minus_src hpr
    have hsame : nd' = nd := by
      refine nid_inj hp (List.mem_of_mem_filter hnd') (List.mem_of_mem_filter hnd) ?_
      rw [hid, heq]
    rw [hsame] at hlast
    rw [heq] at hlast
    exact hnotlast hlast

/-- `1e-8`, the z-offset of the shadowed-key witness node. -/
def qa8 : ℚ := Rat.divInt 1 (10 ^ 8)

/-- The unit cube plus three extra nodes: 9 and 10 sit on the X- face with
transverse coordinates that agree after rounding to 6 decimals, and 11 is
their X+ counterpart. -/
def shadowNodes : List Node :=
  cubeNodes ++
    [⟨9, 0, Rat.divInt 1 2, Rat.divInt 1 4, ∅, Kind.unset⟩,
     ⟨10, 0, Rat.divInt 1 2, qadd (Rat.divInt 1 4) qa8, ∅, Kind.unset⟩,
     ⟨11, 1, Rat.divInt 1 2, Rat.divInt 1 4, ∅, Kind.unset⟩]

/-- The classified shadow nodes. -/
def shadowCNodes : List Node :=
  classify_boundary_nodes ((detect_bounds shadowNodes).getD ⟨0, 0, 0, 0, 0, 0⟩) shadowNodes
    tol_rel6

set_option maxRecDepth 100000 in
/-- Witness for C10: node 9 shares its rounded X- key with node 10 (which
has the higher id and comes later in the node map), so no X face pairing
uses node 9 as its minus node. -/
theorem C10_key_collision_shadowing_witness :
    (Pairing.mk 10 11 (1, 0, qsub (Rat.divInt 1 4) (qadd (Rat.divInt 1 4) qa8))).minus_node ≠
      (Node.mk 9 0 (Rat.divInt 1 2) (Rat.divInt 1 4) {Face.Xm} Kind.face).nid :=
  C10_key_collision_shadowing.2.2.2 shadowCNodes Face.Xm Face.Xp
    ⟨9, 0, Rat.divInt 1 2, Rat.divInt 1 4, {Face.Xm}, Kind.face⟩ (by decide) (by decide)
    (by decide) ⟨10, 11, (1, 0, qsub (Rat.divInt 1 4) (qadd (Rat.divInt 1 4) qa8))⟩
    (by decide)

set_option maxRecDepth 100000 in
/-- Witness for C8 (amended): a degenerate endpoint fails the face-group
guard on the flat box's classified node 1. -/
theorem C8_amended_witness :
    requiredKindOk (some Kind.face)
      (classify_one ((detect_bounds flatNodes).getD ⟨0, 0, 0, 0, 0, 0⟩)
        (classify_tol ((detect_bounds flatNodes).getD ⟨0, 0, 0, 0, 0, 0⟩) tol_rel6)
        ⟨1, 0, 0, 0, ∅, Kind.unset⟩)
      (classify_one ((detect_bounds flatNodes).getD ⟨0, 0, 0, 0, 0, 0⟩)
        (classify_tol ((detect_bounds flatNodes).getD ⟨0, 0, 0, 0, 0, 0⟩) tol_rel6)
        ⟨7, qa9, 1, 1, ∅, Kind.unset⟩) = false :=
  (C8_amended ⟨0, 0, 0, 0, 0, 0⟩ 0 0 ⟨0, 0, 0, 0, ∅, Kind.unset⟩).2.2.2.2.1 Kind.face _ _
    (Or.inl rfl) (Or.inl (by decide))

/-! ## C9: the structure of the output file

Every line of the output except the two keywords starts with a comment
bang or an indentation space, so `constraints` and `multipoint` can only
come from the places `emit_constraints_block` and the MPC section put
them. -/

/-- A line that can never be the `constraints` or `multipoint` keyword:
it starts with `!` (code point 33) or a space (code point 32). -/
def nonkw (s : String) : Prop :=
  s.data.head? = some (Char.ofNat 33) ∨ s.data.head? = some (Char.ofNat 32)

instance (s : String) : Decidable (nonkw s) := by
  unfold nonkw
  infer_instance

/-- Appending anything to a `nonkw` line keeps it `nonkw`: the head
character is decided by the first (nonempty) factor. -/
theorem nonkw_cat {a : String} (b : String) (h : nonkw a) : nonkw (a ++ b) := by
  have key : ∀ c : Char, a.data.head? = some c → (a ++ b).data.head? = some c := by
    intro c hc
    rw [String.data_append]
    cases hd : a.data with
    | nil => rw [hd] at hc; cases hc
    | cons x xs =>
      rw [hd] at hc
      simpa using hc
  exact h.elim (fun h => Or.inl (key _ h)) (fun h => Or.inr (key _ h))

theorem nonkw_ne_constraints {s : String} (h : nonkw s) : s ≠ "constraints" := by
  intro e
  subst e
  rcases h with h | h <;> exact absurd h (by decide)

theorem nonkw_ne_multipoint {s : String} (h : nonkw s) : s ≠ "multipoint" := by
  intro e
  subst e
  rcases h with h | h <;> exact absurd h (by decide)

theorem forall_mem_append {α : Type} {P : α → Prop} {l₁ l₂ : List α}
    (h₁ : ∀ x ∈ l₁, P x) (h₂ : ∀ x ∈ l₂, P x) : ∀ x ∈ l₁ ++ l₂, P x := by
  intro x hx
  rcases List.mem_append.mp hx with h | h
  exacts [h₁ x h, h₂ x h]

/-- Every header comment line starts with `!`. -/
theorem header_lines_nonkw (in_name : String) (pm : ParsedModel) (d : PipelineData) :
    ∀ l ∈ header_lines in_name pm d, nonkw l := by
  simp only [header_lines, List.append_assoc]
  refine forall_mem_append ?_ (forall_mem_append ?_ (forall_mem_append ?_
    (forall_mem_append ?_ (forall_mem_append ?_ (forall_mem_append ?_
    (forall_mem_append ?_ ?_))))))
  · intro l hl
    simp only [List.mem_cons, List.not_mem_nil, or_false] at hl
    rcases hl with rfl | rfl | rfl | rfl | rfl | rfl | rfl | rfl | rfl | rfl | rfl <;>
      · repeat apply nonkw_cat
        exact Or.inl (by decide)
  · intro l hl
    split at hl <;>
      · simp only [List.mem_cons, List.not_mem_nil, or_false] at hl
        (first
          | (rcases hl with rfl | rfl | rfl)
          | (rcases hl with rfl | rfl)) <;> exact Or.inl (by decide)
  · intro l hl
    simp only [List.mem_cons, List.not_mem_nil, or_false] at hl
    rcases hl with rfl | rfl <;>
      · repeat apply nonkw_cat
        exact Or.inl (by decide)
  · decide
  · intro l hl
    obtain ⟨p, hp, rfl⟩ := List.mem_map.mp hl
    repeat apply nonkw_cat
    exact Or.inl (by decide)
  · decide
  · intro l hl
    obtain ⟨e, he, rfl⟩ := List.mem_map.mp hl
    repeat apply nonkw_cat
    exact Or.inl (by decide)
  · intro l hl
    split at hl
    · exact absurd hl (List.not_mem_nil l)
    · rcases List.mem_append.mp hl with h2 | h2
      · simp only [List.mem_cons, List.not_mem_nil, or_false] at h2
        rcases h2 with rfl | rfl <;> exact Or.inl (by decide)
      · obtain ⟨m, hm, rfl⟩ := List.mem_map.mp h2
        apply nonkw_cat
        exact Or.inl (by decide)

/-- Every symbolic-equation line starts with `!`. -/
theorem symbolic_pair_lines_nonkw (nodes : List Node) (rk : Option Kind) (p : Pairing) :
    ∀ l ∈ symbolic_pair_lines nodes rk p, nonkw l := by
  intro l hl
  cases hm : findNode nodes p.minus_node with
  | none =>
    cases hn : findNode nodes p.plus_node with
    | none => simp only [symbolic_pair_lines, hm, hn] at hl; simp at hl
    | some b => simp only [symbolic_pair_lines, hm, hn] at hl; simp at hl
  | some a =>
    cases hn : findNode nodes p.plus_node with
    | none => simp only [symbolic_pair_lines, hm, hn] at hl; simp at hl
    | some b =>
      simp only [symbolic_pair_lines, hm, hn] at hl
      split at hl
      · obtain ⟨i, hi, rfl⟩ := List.mem_map.mp hl
        repeat apply nonkw_cat
        exact Or.inl (by decide)
      · exact absurd hl (List.not_mem_nil l)

/-- Every line of a symbolic group starts with `!`. -/
theorem emit_symbolic_nonkw (label : String) (pl : List Pairing) (nodes : List Node)
    (rk : Option Kind) : ∀ l ∈ emit_symbolic_mpcs_for_pairs label pl nodes rk, nonkw l := by
  simp only [emit_symbolic_mpcs_for_pairs]
  refine forall_mem_append ?_ ?_
  · intro l hl
    simp only [List.mem_cons, List.not_mem_nil, or_false] at hl
    rcases hl with rfl | rfl <;>
      · repeat apply nonkw_cat
        exact Or.inl (by decide)
  · intro l hl
    obtain ⟨p, hp, hl2⟩ := List.mem_flatMap.mp hl
    exact symbolic_pair_lines_nonkw nodes rk p l hl2

/-- Every line of the symbolic section starts with `!`. -/
theorem symbolic_section_nonkw (d : PipelineData) : ∀ l ∈ symbolic_section d, nonkw l := by
  simp only [symbolic_section, List.append_assoc]
  refine forall_mem_append ?_ (forall_mem_append ?_ (forall_mem_append ?_
    (forall_mem_append ?_ (forall_mem_append ?_ ?_))))
  · decide
  · exact emit_symbolic_nonkw _ _ _ _
  · exact emit_symbolic_nonkw _ _ _ _
  · exact emit_symbolic_nonkw _ _ _ _
  · intro l hl
    obtain ⟨lp, hlp, hl2⟩ := List.mem_flatMap.mp hl
    exact emit_symbolic_nonkw _ _ _ _ l hl2
  · exact emit_symbolic_nonkw _ _ _ _

/-- A rendered MPC equation line starts with a space. -/
theorem render_mpc_line_nonkw (ts : List Term) : nonkw (render_mpc_line ts) := by
  cases ts with
  | nil => exact Or.inr (by decide)
  | cons t rest =>
    show nonkw ("  " ++ String.intercalate "  "
      (render_term_first t :: rest.map render_term_rest) ++ " = 0.")
    repeat apply nonkw_cat
    exact Or.inr (by decide)

/-- Every line of the MPC section is the `multipoint` keyword or a
comment/indented line. -/
theorem mpc_section_kw (d : PipelineData) :
    ∀ l ∈ mpc_section d, l = "multipoint" ∨ nonkw l := by
  simp only [mpc_section, List.append_assoc]
  refine forall_mem_append ?_ (forall_mem_append ?_ (forall_mem_append ?_ ?_))
  · intro l hl
    exact Or.inr ((by decide : ∀ x ∈ mpc_pre, nonkw x) l hl)
  · intro l hl
    exact Or.inl (List.mem_singleton.mp hl)
  · intro l hl
    obtain ⟨ts, hts, rfl⟩ := List.mem_map.mp hl
    exact Or.inr (render_mpc_line_nonkw ts)
  · intro l hl
    right
    simp only [mpc_trailer, List.mem_cons, List.not_mem_nil, or_false] at hl
    rcases hl with rfl | rfl | rfl | rfl | rfl <;>
      · repeat apply nonkw_cat
        exact Or.inl (by decide)

/-- The `multipoint` keyword is in the MPC section. -/
theorem mem_multipoint_mpc_section (d : PipelineData) : "multipoint" ∈ mpc_section d := by
  rw [mpc_section]
  exact List.mem_append_left _ (List.mem_append_left _
    (List.mem_append_right _ (List.mem_singleton_self _)))

/-- When no zero key is a driver key, the zero-emission loop succeeds and
produces exactly one rendered line per key. -/
theorem emit_zero_loop_all_ok (driver : DriverMap) (zs : List (ℕ × Dof))
    (h : ∀ p ∈ zs, lookupAL driver p = none) :
    emit_zero_loop driver zs = Except.ok (zs.map zero_line) := by
  induction zs with
  | nil => rfl
  | cons p rest ih =>
    have hp : lookupAL driver p = none := h p (List.mem_cons_self p rest)
    simp only [emit_zero_loop, hp, Option.isSome_none, Bool.false_eq_true, if_false,
      ih (fun q hq => h q (List.mem_cons_of_mem p hq)), Except.map, List.map_cons]

/-- When no driver key is a zero key, `emit_constraints_block` succeeds,
and its payload is the block header followed by either the `(none)` comment
or the `constraints` keyword, the sorted driver lines, and the sorted zero
lines. -/
theorem emit_constraints_block_ok (zc : Finset (ℕ × Dof)) (driver : DriverMap)
    (h : ∀ kv ∈ driver, kv.1 ∉ zc) :
    emit_constraints_block zc driver = Except.ok
      (cblock_hdr ++
        (if zc = ∅ ∧ driver.isEmpty = true then ["!   (none)"]
         else ["constraints"] ++ (driver.insertionSort drvLeP).map driver_line ++
           (sortedPairs zc).map zero_line)) := by
  by_cases hc : zc = ∅ ∧ driver.isEmpty = true
  · rw [emit_constraints_block, if_pos hc, if_pos hc]
  · have hz : emit_zero_loop driver (sortedPairs zc) =
        Except.ok ((sortedPairs zc).map zero_line) := by
      apply emit_zero_loop_all_ok
      intro p hp
      cases hl : lookupAL driver p with
      | none => rfl
      | some v => exact absurd ((mem_sortedPairs zc p).mp hp) (h (p, v) (lookupAL_mem hl))
    simp only [emit_constraints_block, if_neg hc, hz, Except.map, List.append_assoc]

/-- A successful pipeline run passed `main`'s zero/driver conflict check. -/
theorem run_pipeline_ok_conflict {pm : ParsedModel} {d : PipelineData}
    (h : run_pipeline pm = Except.ok d) :
    conflict_check d.fixed_final d.driver = none := by
  simp only [run_pipeline] at h
  repeat' split at h
  all_goals first
    | exact Except.noConfusion h
    | (injection h with h2
       subst h2
       assumption)

/-- Index arithmetic for `indexOf` across an append whose left part misses
the element. -/
theorem indexOf_append_not_mem {a : String} {l₁ l₂ : List String} (h : a ∉ l₁) :
    (l₁ ++ l₂).indexOf a = l₁.length + l₂.indexOf a := by
  induction l₁ with
  | nil => simp
  | cons b bs ih =>
    have hne : ¬ b = a := fun e => h (e ▸ List.mem_cons_self b bs)
    have hbeq : (b == a) = false := beq_eq_false_iff_ne.mpr hne
    rw [List.cons_append, List.indexOf_cons, hbeq, cond_false, List.length_cons,
      ih (fun hm => h (List.mem_cons_of_mem b hm))]
    omega

set_option maxRecDepth 100000 in
/-- **C9.**  On every successful run, the rendered output puts the
constraints block before the `multipoint` keyword; the `constraints`
keyword appears in the output iff at least one zero or driver constraint
exists; and when it does, it is immediately followed by the driver lines
sorted by `(node, dof)` and then the zero lines sorted by `(node, dof)`
(the sortedness and permutation conjuncts pin down those two sublists). -/
theorem C9_output_structure (in_name : String) (sym : Bool) (pm : ParsedModel)
    (d : PipelineData) (h : run_pipeline pm = Except.ok d) :
    ∃ L, main_model in_name sym pm = Except.ok L ∧
      "multipoint" ∈ L ∧
      (("constraints" ∈ L) ↔ ¬(d.fixed_final = ∅ ∧ d.driver = [])) ∧
      (¬(d.fixed_final = ∅ ∧ d.driver = []) →
        ∃ A B, L = A ++ ("constraints" ::
              ((d.driver.insertionSort drvLeP).map driver_line ++
               (sortedPairs d.fixed_final).map zero_line)) ++ B ∧
          "multipoint" ∈ B ∧ "constraints" ∉ A ∧ "multipoint" ∉ A ∧
          L.indexOf "constraints" < L.indexOf "multipoint") ∧
      List.Sorted drvLeP (d.driver.insertionSort drvLeP) ∧
      (d.driver.insertionSort drvLeP).Perm d.driver ∧
      List.Sorted pairLeP (sortedPairs d.fixed_final) ∧
      ∀ p, p ∈ sortedPairs d.fixed_final ↔ p ∈ d.fixed_final := by
  have hdk : ∀ kv ∈ d.driver, kv.1 ∉ d.fixed_final :=
    (conflict_check_eq_none_iff _ _).mp (run_pipeline_ok_conflict h)
  have hemit := emit_constraints_block_ok d.fixed_final d.driver hdk
  have hmain : main_model in_name sym pm = Except.ok
      (header_lines in_name pm d ++ (if sym then symbolic_section d else []) ++
        (cblock_hdr ++
          (if d.fixed_final = ∅ ∧ d.driver.isEmpty = true then ["!   (none)"]
           else ["constraints"] ++ (d.driver.insertionSort drvLeP).map driver_line ++
             (sortedPairs d.fixed_final).map zero_line)) ++
        mpc_section d) := by
    rw [main_model, h]
    show write_output in_name sym pm d = _
    rw [write_output, hemit]
    rfl
  have hH := header_lines_nonkw in_name pm d
  have hS : ∀ l ∈ (if sym then symbolic_section d else []), nonkw l := by
    cases sym
    · intro l hl
      exact absurd hl (List.not_mem_nil l)
    · intro l hl
      exact symbolic_section_nonkw d l hl
  have hhdr2 : ∀ l ∈ cblock_hdr, nonkw l := by decide
  have hA : ∀ l ∈ header_lines in_name pm d ++ (if sym then symbolic_section d else []) ++
      cblock_hdr, nonkw l := forall_mem_append (forall_mem_append hH hS) hhdr2
  have hcA : "constraints" ∉ header_lines in_name pm d ++
      (if sym then symbolic_section d else []) ++ cblock_hdr :=
    fun hm => nonkw_ne_constraints (hA _ hm) rfl
  have hmpA : "multipoint" ∉ header_lines in_name pm d ++
      (if sym then symbolic_section d else []) ++ cblock_hdr :=
    fun hm => nonkw_ne_multipoint (hA _ hm) rfl
  refine ⟨_, hmain, ?_, ?_, ?_, List.sorted_insertionSort drvLeP d.driver,
    List.perm_insertionSort drvLeP d.driver, sorted_sortedPairs d.fixed_final,
    mem_sortedPairs d.fixed_final⟩
  · exact List.mem_append_right _ (mem_multipoint_mpc_section d)
  · constructor
    · intro hcl hE
      obtain ⟨hz, hd⟩ := hE
      have hcond : d.fixed_final = ∅ ∧ d.driver.isEmpty = true :=
        ⟨hz, List.isEmpty_iff.mpr hd⟩
      rw [if_pos hcond] at hcl
      have hall : ∀ l ∈ header_lines in_name pm d ++
          (if sym then symbolic_section d else []) ++
          (cblock_hdr ++ ["!   (none)"]) ++ mpc_section d,
          l = "multipoint" ∨ nonkw l :=
        forall_mem_append
          (fun l hl => Or.inr ((forall_mem_append (forall_mem_append hH hS)
            (forall_mem_append hhdr2 (by decide))) l hl))
          (mpc_section_kw d)
      rcases hall _ hcl with he | hnk
      · exact absurd he (by decide)
      · exact nonkw_ne_constraints hnk rfl
    · intro hne
      have hcond : ¬(d.fixed_final = ∅ ∧ d.driver.isEmpty = true) :=
        fun hc => hne ⟨hc.1, List.isEmpty_iff.mp hc.2⟩
      rw [if_neg hcond]
      exact List.mem_append_left _ (List.mem_append_right _ (List.mem_append_right _
        (List.mem_append_left _ (List.mem_append_left _ (List.mem_singleton_self _)))))
  · intro hne
    have hcond : ¬(d.fixed_final = ∅ ∧ d.driver.isEmpty = true) :=
      fun hc => hne ⟨hc.1, List.isEmpty_iff.mp hc.2⟩
    rw [if_neg hcond]
    refine ⟨header_lines in_name pm d ++ (if sym then symbolic_section d else []) ++
      cblock_hdr, mpc_section d, ?_, mem_multipoint_mpc_section d, hcA, hmpA, ?_⟩
    · simp [List.append_assoc]
    · have hL2 : header_lines in_name pm d ++ (if sym then symbolic_section d else []) ++
          (cblock_hdr ++ (["constraints"] ++
            (d.driver.insertionSort drvLeP).map driver_line ++
            (sortedPairs d.fixed_final).map zero_line)) ++ mpc_section d =
          (header_lines in_name pm d ++ (if sym then symbolic_section d else []) ++
            cblock_hdr) ++ ("constraints" ::
              ((d.driver.insertionSort drvLeP).map driver_line ++
               (sortedPairs d.fixed_final).map zero_line ++ mpc_section d)) := by
        simp [List.append_assoc]
      rw [hL2, indexOf_append_not_mem hcA, indexOf_append_not_mem hmpA,
        List.indexOf_cons, List.indexOf_cons,
        (by decide : ("constraints" == "constraints") = true),
        (by decide : ("constraints" == "multipoint") = false), cond_true, cond_false]
      omega

/-- A conflict-free cube model: `eps_11 = 1/2` drives node 100 DOF `u`
through the dummy map, and node 3 DOF `u` carries a caller-supplied zero
constraint. -/
def c9PM : ParsedModel :=
  ⟨1, 1, 1, cubeVIds, epsE11, cubeNodes, {(3, Dof.u)}, [((1, 1), (200, 100, Dof.u))]⟩

/-- The pipeline data of the conflict-free cube run (the error arm is
never taken). -/
def c9Data : PipelineData :=
  match run_pipeline c9PM with
  | Except.ok d => d
  | Except.error _ => ⟨⟨0, 0, 0, 0, 0, 0⟩, [], ⟨[], [], []⟩, [], [], ∅, [], [], []⟩

set_option maxRecDepth 100000 in
/-- Witness for C9: the conflict-free cube run succeeds and its output
contains the `multipoint` keyword. -/
theorem C9_output_structure_witness :
    ∃ L, main_model "rve_code_input.txt" false c9PM = Except.ok L ∧ "multipoint" ∈ L := by
  have hsome : (run_pipeline c9PM).toOption.isSome = true := by decide
  have hr : run_pipeline c9PM = Except.ok c9Data := by
    cases hrr : run_pipeline c9PM with
    | error e => rw [hrr] at hsome; simp [Except.toOption] at hsome
    | ok dd => simp only [c9Data, hrr]
  obtain ⟨L, h1, h2, hrest⟩ := C9_output_structure "rve_code_input.txt" false c9PM c9Data hr
  exact ⟨L, h1, h2⟩

end RveMpc
